import Mathlib

/-!
A shallow embedding, in Lean 4, of the core of the Vulkan footprint builder
(`gapis/api/vulkan/footprint_builder.go`): the dependency behavior emitter
(`read` / `write` / `modify`), the memory binding engine (`resBinding`,
`getSubBindingList`, `getBoundData`), the queue rollout engine
(`rollOutExecuted`), and the command-dispatcher arms needed by the claims
(`VkBeginCommandBuffer`, `VkResetCommandBuffer`, `VkQueuePresentKHR`,
`getImageData` / `VkCreateImageView`).

Machine integers: `uint64` values are modelled as `Nat` kept below `2 ^ 64`;
arithmetic that can overflow in Go is made explicit through `u64add`,
`u64sub` and `u64mul`.

Pointer-identified objects (labels, behaviors, `commandBufferCommand`s) are
identified by `Nat` tokens; `memorySpan` variables compare by
`(memory, start, end)` values, which is the identity the builder itself uses
for spans at the moment of read.
-/

namespace FB

/-- 2 ^ 64, the modulus of Go's `uint64` arithmetic. -/
def U64MOD : Nat := 2 ^ 64

/-- Source: `const vkWholeSize = uint64(0xFFFFFFFFFFFFFFFF)`. -/
def vkWholeSize : Nat := U64MOD - 1

/-- Go `uint64` addition (wraps modulo `2 ^ 64`). -/
def u64add (a b : Nat) : Nat := (a + b) % U64MOD

/-- Go `uint64` subtraction (wraps modulo `2 ^ 64`); callers keep both
arguments below `U64MOD`. -/
def u64sub (a b : Nat) : Nat := (a + U64MOD - b) % U64MOD

/-- Go `uint64` multiplication (wraps modulo `2 ^ 64`). -/
def u64mul (a b : Nat) : Nat := (a * b) % U64MOD

/-- Source: `interval.U64Span`, a half-open interval of `uint64` values.
The source field `End` is renamed `stop` (`end` is reserved in Lean). -/
structure U64Span where
  start : Nat
  stop : Nat
deriving DecidableEq, Repr

/-- Two half-open spans overlap (have a non-empty intersection).  This is the
overlap criterion of the `core/math/interval` package. -/
def overlaps (a b : U64Span) : Bool :=
  decide (a.start < b.stop ∧ b.start < a.stop)

/-- A well-formed interval list: sorted, pairwise non-overlapping and with
non-empty members (spec invariant 2: "Binding lists for a resource are
sorted and non-overlapping"). -/
def wfSpans (l : List U64Span) : Prop :=
  l.Pairwise (fun a b => a.stop ≤ b.start) ∧ ∀ x ∈ l, x.start < x.stop

/-- The elements at indices `[first, first+count)` of a list, i.e. the range
visited by a Go loop `for i := first; i < first+count; i++`. -/
def slice (l : List α) (first count : Nat) : List α :=
  (l.drop first).take count

/-- Modelled from the spec: `interval.Intersect` (package
`core/math/interval`, not under `src/`) returns the first index and the
count of the intervals of the (sorted, non-overlapping) list that intersect
the given span.  `spanOf` extracts the span of a list member, as the
`interval.List` interface does in Go. -/
def intersectBy (spanOf : α → U64Span) (l : List α) (s : U64Span) : Nat × Nat :=
  (l.findIdx (fun x => overlaps (spanOf x) s),
   (l.filter (fun x => overlaps (spanOf x) s)).length)

/-- `interval.Intersect` on a plain span list. -/
def intersect (l : List U64Span) (s : U64Span) : Nat × Nat :=
  intersectBy id l s

/-- Modelled from the spec: `addBinding`
(`gapis/api/vulkan/mem_binding_list.go`, not under `src/`) inserts the new
span preserving order; overlapping prior spans are replaced over the overlap
region ("rebinding overwrites the overlap").  On lists of plain memory
spans the operation always succeeds. -/
def addBinding (l : List U64Span) (b : U64Span) : List U64Span :=
  (l.filterMap (fun x =>
      if x.start < b.start then some ⟨x.start, min x.stop b.start⟩ else none))
    ++ [b] ++
  (l.filterMap (fun x =>
      if b.stop < x.stop then some ⟨max x.start b.stop, x.stop⟩ else none))

/-- Source: `dependencygraph.DefUseVariable`, the unit of dependency
tracking.  The variants the emitter's type switch distinguishes are kept;
variable kinds the switch treats uniformly through its `default` arm
(descriptors, bound descriptor sets, subpass indices, `commandBufferCommand`s,
sparse image bindings, ...) are represented by identity tokens.  `nilVar` is
a Go `nil` pointer recorded as a variable (e.g. a `semaphoreSignals` map
miss). -/
inductive DefUseVariable where
  | vkHandle (handle : Nat)
  | label (n : Nat)
  | forwardPairedLabel (n : Nat)
  | memorySpan (memory : Nat) (sp : U64Span)
  | commandVar (n : Nat)
  | sparseBindingVar (n : Nat)
  | nilVar
  | otherVar (n : Nat)
deriving DecidableEq, Repr

/-- Source: `dependencygraph.Behavior` (package
`gapis/resolve/dependencygraph`, not under `src/`).  Modelled from the spec:
a behavior carries a command index, a read set, a write set and the
`Alive` / `Aborted` flags (spec glossary).  Reads and writes are kept in
stamping order. -/
structure Behavior where
  id : List Nat
  reads : List DefUseVariable
  writes : List DefUseVariable
  alive : Bool
  aborted : Bool
deriving DecidableEq, Repr

/-- Source: `dependencygraph.NewBehavior`. -/
def Behavior.new (id : List Nat) : Behavior :=
  ⟨id, [], [], false, false⟩

/-- Modelled from the spec: `Behavior.Read` records a read edge on the
variable (the def-use back-pointer bookkeeping is identity-only and not
modelled). -/
def Behavior.Read (b : Behavior) (v : DefUseVariable) : Behavior :=
  { b with reads := b.reads ++ [v] }

/-- Modelled from the spec: `Behavior.Write` records a write edge on the
variable. -/
def Behavior.Write (b : Behavior) (v : DefUseVariable) : Behavior :=
  { b with writes := b.writes ++ [v] }

/-- A behavior with a list of variables appended to its read set (used to
state emitter results). -/
def Behavior.withReads (b : Behavior) (l : List DefUseVariable) : Behavior :=
  { b with reads := b.reads ++ l }

/-- A behavior with a list of variables appended to its write set. -/
def Behavior.withWrites (b : Behavior) (l : List DefUseVariable) : Behavior :=
  { b with writes := b.writes ++ l }

/-- Source: `memorySpanRecords` — the per-device-memory recorded-spans
lists (`records map[VkDeviceMemory]memorySpanList`), as an association
list. -/
abbrev MemRecords : Type := List (Nat × List U64Span)

/-- Go map indexing `records[mem]`: a missing key yields the `nil` slice,
which all interval operations treat as the empty list. -/
def recLookup (r : MemRecords) (mem : Nat) : List U64Span :=
  match (List.find? (fun p => p.fst = mem) r) with
  | some p => p.snd
  | none => []

/-- Go map assignment `records[mem] = l` (replace or insert). -/
def recUpdate (r : MemRecords) (mem : Nat) (l : List U64Span) : MemRecords :=
  match (List.find? (fun p => p.fst = mem) r) with
  | some _ => List.map (fun p => if p.fst = mem then (mem, l) else p) r
  | none => r ++ [(mem, l)]

/-- Source: the body of the emitter's `read` for a single variable
(`footprint_builder.go:2964-2997`).  A null Vulkan handle is dropped and
fails; a memory span with the null device memory is silently skipped (still
succeeding); a non-null memory span is intersected against the
recorded-spans list of its device memory and every overlapping recorded
span is read; a forward-paired label records a plain read edge (the
reader-list bookkeeping on the label, unused by every claim, is not
modelled); everything else records a plain read edge. -/
def readOne (r : MemRecords) (bh : Behavior) (c : DefUseVariable) :
    MemRecords × Behavior × Bool :=
  match c with
  | .vkHandle h =>
      if h = 0 then (r, bh, false) else (r, bh.Read c, true)
  | .forwardPairedLabel _ => (r, bh.Read c, true)
  | .memorySpan mem sp =>
      if mem = 0 then (r, bh, true)
      else
        let l := recLookup r mem
        let fc := intersect l sp
        (r, (slice l fc.1 fc.2).foldl
              (fun b s => b.Read (.memorySpan mem s)) bh, true)
  | _ => (r, bh.Read c, true)

/-- Source: `read(ctx, bh, cs...)` over the variadic argument list; returns
`false` iff some variable failed (`allSucceeded`). -/
def read (r : MemRecords) (bh : Behavior) :
    List DefUseVariable → MemRecords × Behavior × Bool
  | [] => (r, bh, true)
  | c :: cs =>
      let s := readOne r bh c
      let rest := read s.1 s.2.1 cs
      (rest.1, rest.2.1, s.2.2 && rest.2.2)

/-- Source: the body of the emitter's `write` for a single variable
(`footprint_builder.go:2999-3030`).  A null Vulkan handle is dropped and
fails; a memory span with the null device memory is silently skipped (still
succeeding); a non-null memory span is duplicated (value copy here), the
duplicate is merged into the recorded-spans list of its device memory via
`addBinding`, and the write is recorded on the duplicate (the spec-modelled
`addBinding` on span lists always succeeds, so the source's failed-merge
branch is unreachable here). -/
def writeOne (r : MemRecords) (bh : Behavior) (c : DefUseVariable) :
    MemRecords × Behavior × Bool :=
  match c with
  | .vkHandle h =>
      if h = 0 then (r, bh, false) else (r, bh.Write c, true)
  | .memorySpan mem sp =>
      if mem = 0 then (r, bh, true)
      else
        let newList := addBinding (recLookup r mem) sp
        (recUpdate r mem newList, bh.Write (.memorySpan mem sp), true)
  | _ => (r, bh.Write c, true)

/-- Source: `write(ctx, bh, cs...)` over the variadic argument list. -/
def write (r : MemRecords) (bh : Behavior) :
    List DefUseVariable → MemRecords × Behavior × Bool
  | [] => (r, bh, true)
  | c :: cs =>
      let s := writeOne r bh c
      let rest := write s.1 s.2.1 cs
      (rest.1, rest.2.1, s.2.2 && rest.2.2)

/-- Source: `modify` = read then write; the write is skipped when the read
failed (`allSucceeded && write(...)` short-circuits in Go). -/
def modify (r : MemRecords) (bh : Behavior) (cs : List DefUseVariable) :
    MemRecords × Behavior × Bool :=
  let s := read r bh cs
  if s.2.2 then write s.1 s.2.1 cs else (s.1, s.2.1, false)

/-- Source: `resBinding` — `(resourceOffset, bindSize, backingData)` where
`backingData` is a memory span (opaque bind) or a label (swapchain-owned
image).  The def-use back-pointer field `b` is identity bookkeeping and not
modelled. -/
structure resBinding where
  resourceOffset : Nat
  bindSize : Nat
  backingData : DefUseVariable
deriving DecidableEq, Repr

/-- Source: `resBinding.size()`. -/
def resBinding.size (bd : resBinding) : Nat := bd.bindSize

/-- Source: `resBinding.span()` — `[resourceOffset, resourceOffset+size)`
in `uint64` arithmetic. -/
def resBinding.span (bd : resBinding) : U64Span :=
  ⟨bd.resourceOffset, u64add bd.resourceOffset bd.bindSize⟩

/-- Source: `resBinding.shrink(offset, size)`
(`footprint_builder.go:649-668`).  `vkWholeSize` is normalized to
"from offset to the end"; an out-of-bound or wrapping sub-range is the
`shrinkOutOfMemBindingBound` error; a memory-span backing shrinks both the
resource interval and the memory span; any other backing may only be kept
whole. -/
def resBinding.shrink (bd : resBinding) (offset size : Nat) :
    Except String resBinding :=
  let size := if size = vkWholeSize then u64sub bd.size offset else size
  if u64add offset size < offset ∨ u64add offset size > bd.size then
    Except.error "shrinkOutOfMemBindingBound"
  else
    match bd.backingData with
    | .memorySpan mem sp =>
        Except.ok
          { resourceOffset := u64add bd.resourceOffset offset,
            bindSize := size,
            backingData := .memorySpan mem
              ⟨u64add sp.start offset, u64add (u64add sp.start offset) size⟩ }
    | _ =>
        if offset ≠ 0 ∨ size ≠ bd.size then
          Except.error "Cannot shrink a resBinding whose backing data is not a memorySpan into different size and offset than the original one"
        else Except.ok bd

/-- The `vkWholeSize` normalization at the top of `resBinding.shrink`:
`vkWholeSize` means "from offset to the end of the binding". -/
def normSize (bd : resBinding) (offset size : Nat) : Nat :=
  if size = vkWholeSize then u64sub bd.size offset else size

/-- Source: `resBinding.newSubBinding` — duplicate (a value copy here) and
shrink; on error the source logs and yields nil (the behavior-stamping of
the sub-binding, active only when `bh` is non-nil, is not modelled: every
claim about this function concerns the returned list). -/
def resBinding.newSubBinding (bd : resBinding) (offset size : Nat) :
    Except String resBinding :=
  bd.shrink offset size

/-- The boundary clipping performed per overlapping binding inside
`getSubBindingList` (`footprint_builder.go:753-765`): clamp the binding's
span to the requested range and take the sub-binding over the clamped
part. -/
def subBindingAt (q : U64Span) (bd : resBinding) : Except String resBinding :=
  let start := max bd.span.start q.start
  let stop := min bd.span.stop q.stop
  bd.newSubBinding (u64sub start bd.span.start) (u64sub stop start)

/-- The body of `getSubBindingList` after the overflow normalization of
`size`: intersect, then clip every overlapping binding, dropping the ones
whose `newSubBinding` failed (the source logs the error and keeps going). -/
def getSubBindingListCore (l : List resBinding) (offset size : Nat) :
    List resBinding :=
  let q : U64Span := ⟨offset, u64add offset size⟩
  let fc := intersectBy resBinding.span l q
  (slice l fc.1 fc.2).filterMap (fun bd => (subBindingAt q bd).toOption)

/-- Source: `resBindingList.getSubBindingList`
(`footprint_builder.go:740-775`).  If `offset+size` wraps past `2^64` the
size is clamped so the range ends at `vkWholeSize`.  (The reads of the
boundary bindings stamped on `bh`, when `bh` is non-nil, are not modelled:
every claim about this function concerns the returned list.) -/
def getSubBindingList (l : List resBinding) (offset size : Nat) :
    List resBinding :=
  getSubBindingListCore l offset
    (if u64add offset size < offset then u64sub vkWholeSize offset else size)

/-- Source: `resBindingList.getBoundData` — flatten the sub-binding list to
its backing data (nil sub-bindings were already dropped). -/
def getBoundData (l : List resBinding) (offset size : Nat) :
    List DefUseVariable :=
  (getSubBindingList l offset size).map resBinding.backingData

/-- A well-formed binding list: sorted, non-overlapping, each binding
non-empty, below the `vkWholeSize` sentinel, and not wrapping past
`2^64`. -/
def wfBindings (l : List resBinding) : Prop :=
  l.Pairwise (fun a b => a.span.stop ≤ b.span.start) ∧
  ∀ bd ∈ l, 0 < bd.bindSize ∧ bd.resourceOffset + bd.bindSize < U64MOD ∧
    bd.bindSize < vkWholeSize

/-- A binding backed by a memory span whose addresses do not wrap. -/
def spanBacked (bd : resBinding) : Prop :=
  ∃ mem msp, bd.backingData = DefUseVariable.memorySpan mem msp ∧
    msp.start + bd.bindSize < U64MOD

/-- The sub-binding the claim describes for a binding intersecting the
requested range: same backing data, resource interval clipped to the
intersection, memory span shrunk by the same amounts. -/
def clipBinding (q : U64Span) (bd : resBinding) : resBinding :=
  let start := max bd.span.start q.start
  let stop := min bd.span.stop q.stop
  { resourceOffset := start,
    bindSize := stop - start,
    backingData :=
      match bd.backingData with
      | .memorySpan mem msp =>
          .memorySpan mem
            ⟨msp.start + (start - bd.span.start),
             msp.start + (start - bd.span.start) + (stop - start)⟩
      | other => other }

/-- Source: `VkIndexType` (only the arms `VkIndexType.size()`
distinguishes). -/
inductive VkIndexType where
  | uint16
  | uint32
  | otherIndexType (n : Nat)
deriving DecidableEq, Repr

/-- Source: `VkIndexType.size()` (`footprint_builder.go:1474-1484`). -/
def VkIndexType.size : VkIndexType → Nat
  | .uint16 => 2
  | .uint32 => 4
  | .otherIndexType _ => 0

/-- The command variants `readBoundIndexBuffer`'s type switch
distinguishes. -/
inductive DrawCmd where
  | VkCmdDrawIndexed (indexCount firstIndex : Nat)
  | VkCmdDrawIndexedIndirect
deriving DecidableEq, Repr

/-- Source: the `dataToRead` computation of
`FootprintBuilder.readBoundIndexBuffer` (`footprint_builder.go:1486-1503`):
the default range is the whole buffer; a `VkCmdDrawIndexed` reads
`size = IndexCount * indexSize` bytes starting at
`offset = FirstIndex * indexSize` (the source logs when `indexSize` is 0;
the subsequent `read(ctx, bh, dataToRead...)` stamps these variables). -/
def readBoundIndexBufferData (bindings : List resBinding)
    (ty : VkIndexType) (cmd : DrawCmd) : List DefUseVariable :=
  let indexSize := ty.size
  let os : Nat × Nat :=
    match cmd with
    | .VkCmdDrawIndexed ic fi =>
        (u64add 0 (u64mul fi indexSize), u64mul ic indexSize)
    | .VkCmdDrawIndexedIndirect => (0, vkWholeSize)
  getBoundData bindings os.1 os.2

/-- Source: `FootprintBuilder.readBoundIndexBuffer` — stamp a read of the
bound data on the behavior. -/
def readBoundIndexBuffer (r : MemRecords) (bh : Behavior)
    (bindings : List resBinding) (ty : VkIndexType) (cmd : DrawCmd) :
    MemRecords × Behavior :=
  let s := read r bh (readBoundIndexBufferData bindings ty cmd)
  (s.1, s.2.1)

/-- Go map lookup on an association list keyed by `Nat` (handles, command
IDs). -/
def lookupA (l : List (Nat × α)) (k : Nat) : Option α :=
  (List.find? (fun p => p.fst = k) l).map Prod.snd

/-- Go map assignment for a key known to be present (mutation through the
stored pointer in the source). -/
def updateA (l : List (Nat × α)) (k : Nat) (v : α) : List (Nat × α) :=
  List.map (fun p => if p.fst = k then (k, v) else p) l

/-- Go map assignment `m[k] = v` (replace or insert). -/
def updateOrInsertA (l : List (Nat × α)) (k : Nat) (v : α) :
    List (Nat × α) :=
  match lookupA l k with
  | some _ => updateA l k v
  | none => l ++ [(k, v)]

/-- Source: `submittedCommand` — one concrete invocation of a recorded
command-buffer command, identified by its full subcommand index.  The
`cmd` / `parentCmd` closure pointers are abstracted: the rollout engine runs
them through the `runCmd` parameter below. -/
structure submittedCommand where
  id : List Nat
deriving DecidableEq, Repr

/-- Source: `queueSubmitInfo` (`footprint_builder.go:186-195`).  Labels are
identified by their token. -/
structure queueSubmitInfo where
  queue : Nat
  began : Bool
  queued : Nat
  done : Nat
  waitSemaphores : List Nat
  signalSemaphores : List Nat
  signalFence : Nat
  pendingCommands : List submittedCommand
deriving DecidableEq, Repr

/-- Source: `fence` — the signal/unsignal label pair of a `VkFence`. -/
structure fenceLabels where
  signal : Nat
  unsignal : Nat
deriving DecidableEq, Repr

/-- Source: `queueExecutionState`, reduced to the fields the rollout engine
itself touches: the current submit (a pointer in Go, its command ID here)
and the current full command index.  The per-command-buffer execution
state (bound pipeline, descriptor sets, subpasses, ...) is only read by the
abstracted `behave` closures and is not modelled. -/
structure queueExecutionState where
  currentSubmitID : Nat
  currentCommand : List Nat
deriving DecidableEq, Repr

/-- Source: `queueExecutionState.updateCurrentCommand`
(`footprint_builder.go:299-327`): record the new current command index (the
source additionally resets the primary/secondary command-buffer execution
states, which are not modelled, and logs when the index length is neither 4
nor 6). -/
def updateCurrentCommand (qes : queueExecutionState) (fci : List Nat) :
    queueExecutionState :=
  { qes with currentCommand := fci }

/-- The builder state threaded through the rollout engine.  `footprint` is
the behavior list produced through `ft.AddBehavior`; `logs` collects the
error messages the source sends to `log.E`. -/
structure RollState where
  records : MemRecords
  semaphoreSignals : List (Nat × Nat)
  fences : List (Nat × fenceLabels)
  submitInfos : List (Nat × queueSubmitInfo)
  executionStates : List (Nat × queueExecutionState)
  footprint : List Behavior
  logs : List String
deriving DecidableEq, Repr

/-- `vb.semaphoreSignals[sp]` — a map miss yields a Go `nil` pointer, which
the emitter records as a variable without dereferencing it. -/
def semLabelVar (sems : List (Nat × Nat)) (sp : Nat) : DefUseVariable :=
  match lookupA sems sp with
  | some n => .label n
  | none => .nilVar

/-- The wait-semaphore loop of the begin-of-submit behavior
(`footprint_builder.go:1352-1356`): for every wait semaphore, read its
handle and, when non-null, modify its signal label. -/
def beganReads (sems : List (Nat × Nat)) :
    MemRecords → List Nat → Behavior → MemRecords × Behavior
  | r, [], bh => (r, bh)
  | r, sp :: rest, bh =>
      let s := read r bh [DefUseVariable.vkHandle sp]
      if s.2.2 then
        let m := modify s.1 s.2.1 [semLabelVar sems sp]
        beganReads sems m.1 rest m.2.1
      else beganReads sems s.1 rest s.2.1

/-- The signal-semaphore loop of the end-of-submit behavior
(`footprint_builder.go:1384-1388`): for every signal semaphore, read its
handle and, when non-null, write its signal label. -/
def signalSemWrites (sems : List (Nat × Nat)) :
    MemRecords → List Nat → Behavior → MemRecords × Behavior
  | r, [], bh => (r, bh)
  | r, sp :: rest, bh =>
      let s := read r bh [DefUseVariable.vkHandle sp]
      if s.2.2 then
        let w := write s.1 s.2.1 [semLabelVar sems sp]
        signalSemWrites sems w.1 rest w.2.1
      else signalSemWrites sems s.1 rest s.2.1

/-- The error message of `footprint_builder.go:1368`. -/
def execOrderErrMsg : String :=
  "FootprintBuilder: Execution order differs from submission order"

/-- Source: the end-of-submit block of `rollOutExecuted`
(`footprint_builder.go:1378-1393`): after the last pending command is
removed, a terminal behavior reads `queued`, writes `done`, writes the
signal label of every non-null signal semaphore and, when the signal fence
handle is non-null, writes its signal label — dereferencing the fence's
shadow entry, so a missing entry is a `nil`-pointer panic (`none`). -/
def terminalBehavior (st : RollState) (submitID : Nat)
    (info : queueSubmitInfo) : Option (MemRecords × Behavior) :=
  let bh := Behavior.new [submitID]
  let s1 := read st.records bh [DefUseVariable.label info.queued]
  let s2 := write s1.1 s1.2.1 [DefUseVariable.label info.done]
  let s3 := signalSemWrites st.semaphoreSignals s2.1 info.signalSemaphores s2.2.1
  let s4 := read s3.1 s3.2 [DefUseVariable.vkHandle info.signalFence]
  if s4.2.2 then
    match lookupA st.fences info.signalFence with
    | none => none
    | some fl =>
        let s5 := write s4.1 s4.2.1 [DefUseVariable.label fl.signal]
        some (s5.1, s5.2.1)
  else some (s4.1, s4.2.1)

/-- The terminal behavior is appended to the footprint through
`ft.AddBehavior`. -/
def terminalStep (st : RollState) (submitID : Nat) (info : queueSubmitInfo) :
    Option RollState :=
  (terminalBehavior st submitID info).map (fun rb =>
    { st with records := rb.1, footprint := st.footprint ++ [rb.2] })

/-- The begin-of-submit block of the `rollOutExecuted` loop
(`footprint_builder.go:1350-1360`): when the submit has not begun yet, emit
a behavior that modifies every non-null wait semaphore's signal label, and
mark the submit begun. -/
def applyBegan (st : RollState) (submitID : Nat) (info0 : queueSubmitInfo) :
    RollState × queueSubmitInfo :=
  if info0.began then (st, info0)
  else
    let b1 := beganReads st.semaphoreSignals st.records
      info0.waitSemaphores (Behavior.new [submitID])
    let info1 := { info0 with began := true }
    ({ st with records := b1.1,
               footprint := st.footprint ++ [b1.2],
               submitInfos := updateA st.submitInfos submitID info1 },
     info1)

/-- One iteration of the `rollOutExecuted` loop
(`footprint_builder.go:1347-1394`) for one executed full command index.
`none` is a Go panic (an empty index, a missing submit info, an empty
pending queue under indexing, a missing queue execution state, or a missing
fence entry).  The returned `Bool` is `false` when the execution order
diverged from the submission order: the source logs and returns from the
whole function. -/
def rollOutStep
    (runCmd : List Nat → queueExecutionState →
      queueExecutionState × List Behavior)
    (st : RollState) (fci : List Nat) : Option (RollState × Bool) :=
  match fci with
  | [] => none
  | submitID :: _ =>
    match lookupA st.submitInfos submitID with
    | none => none
    | some info0 =>
      let stInfo := applyBegan st submitID info0
      let st1 := stInfo.1
      let info := stInfo.2
      match info.pendingCommands with
      | [] => none
      | submittedCmd :: restPending =>
        if fci = submittedCmd.id then
          match lookupA st1.executionStates info.queue with
          | none => none
          | some qes0 =>
            let qes1 := updateCurrentCommand
              { qes0 with currentSubmitID := submitID } fci
            let rc := runCmd fci qes1
            let info2 := { info with pendingCommands := restPending }
            let st2 :=
              { st1 with
                executionStates := updateA st1.executionStates info.queue rc.1,
                footprint := st1.footprint ++ rc.2,
                submitInfos := updateA st1.submitInfos submitID info2 }
            match restPending with
            | [] => (terminalStep st2 submitID info2).map (fun s => (s, true))
            | _ :: _ => some (st2, true)
        else
          some ({ st1 with logs := st1.logs ++ [execOrderErrMsg] }, false)

/-- Source: `FootprintBuilder.rollOutExecuted` — walk the collaborator's
executed-command list; an execution-order divergence stops the walk. -/
def rollOutExecuted
    (runCmd : List Nat → queueExecutionState →
      queueExecutionState × List Behavior)
    (st : RollState) : List (List Nat) → Option (RollState × Bool)
  | [] => some (st, true)
  | fci :: rest =>
    match rollOutStep runCmd st fci with
    | none => none
    | some (st1, true) => rollOutExecuted runCmd st1 rest
    | some (st1, false) => some (st1, false)

/-- The pending-commands queue of a submit in a rollout state (empty when
the submit is unknown). -/
def pendingOf (st : RollState) (sid : Nat) : List submittedCommand :=
  match lookupA st.submitInfos sid with
  | some i => i.pendingCommands
  | none => []

/-- Source: `commandBuffer` — the begin/end/renderPassBegin label triple of
a command buffer's shadow entry.  The source field `end` is renamed
`endLabel`. -/
structure commandBufferLabels where
  begin : Nat
  endLabel : Nat
  renderPassBegin : Nat
deriving DecidableEq, Repr

/-- The builder state the command-buffer recording arms touch:
`commandBuffers` is the shadow map, `commands` the per-buffer deferred
command lists (commands identified by tokens). -/
structure CBState where
  records : MemRecords
  commandBuffers : List (Nat × commandBufferLabels)
  commands : List (Nat × List Nat)
deriving DecidableEq, Repr

/-- `vb.commands[cb]` — a map miss yields the `nil` slice. -/
def commandsOf (st : CBState) (cb : Nat) : List Nat :=
  match lookupA st.commands cb with
  | some l => l
  | none => []

/-- Source: the `VkBeginCommandBuffer` arm of `BuildFootprint`
(`footprint_builder.go:2040-2045`): read the handle; if the buffer has a
shadow entry, write its begin label and clear its deferred command list. -/
def vkBeginCommandBufferArm (st : CBState) (bh : Behavior) (cb : Nat) :
    CBState × Behavior :=
  let s := read st.records bh [DefUseVariable.vkHandle cb]
  match lookupA st.commandBuffers cb with
  | some cbo =>
      let w := write s.1 s.2.1 [DefUseVariable.label cbo.begin]
      ({ st with records := w.1,
                 commands := updateOrInsertA st.commands cb [] }, w.2.1)
  | none => ({ st with records := s.1 }, s.2.1)

/-- Source: the `VkResetCommandBuffer` arm of `BuildFootprint`
(`footprint_builder.go:2018-2024`): read the handle; if the buffer has a
shadow entry, write its begin and end labels and clear its deferred command
list. -/
def vkResetCommandBufferArm (st : CBState) (bh : Behavior) (cb : Nat) :
    CBState × Behavior :=
  let s := read st.records bh [DefUseVariable.vkHandle cb]
  match lookupA st.commandBuffers cb with
  | some cbo =>
      let w := write s.1 s.2.1
        [DefUseVariable.label cbo.begin, DefUseVariable.label cbo.endLabel]
      ({ st with records := w.1,
                 commands := updateOrInsertA st.commands cb [] }, w.2.1)
  | none => ({ st with records := s.1 }, s.2.1)

/-- Source: `FootprintBuilder.newCommand` (`footprint_builder.go:1309-1320`):
read the command-buffer handle; if the buffer has a shadow entry, read its
begin label, write the new `commandBufferCommand` (here the token `tok`)
and append it to the buffer's deferred command list; otherwise nothing is
recorded (the source returns nil). -/
def newCommand (st : CBState) (bh : Behavior) (cb tok : Nat) :
    CBState × Behavior × Option Nat :=
  let s := read st.records bh [DefUseVariable.vkHandle cb]
  match lookupA st.commandBuffers cb with
  | some cbo =>
      let s2 := read s.1 s.2.1 [DefUseVariable.label cbo.begin]
      let w := write s2.1 s2.2.1 [DefUseVariable.commandVar tok]
      ({ st with records := w.1,
                 commands := updateOrInsertA st.commands cb
                   (commandsOf st cb ++ [tok]) }, w.2.1, some tok)
  | none => ({ st with records := s.1 }, s.2.1, none)

/-- Re-recording after a reset: every `vkCmd*` arm goes through
`newCommand`; this folds a sequence of recordings into the state. -/
def recordCommands (st : CBState) (bh : Behavior) (cb : Nat) :
    List Nat → CBState
  | [] => st
  | tok :: rest => recordCommands (newCommand st bh cb tok).1 bh cb rest

/-- The builder state the `VkQueuePresentKHR` arm touches. -/
structure PresentState where
  records : MemRecords
  semaphoreSignals : List (Nat × Nat)
  swapchainImageAcquired : List (Nat × List Nat)
  swapchainImagePresented : List (Nat × List Nat)
  footprint : List Behavior
deriving DecidableEq, Repr

/-- `vb.swapchainImageAcquired[sw][imgID]`: `none` when either the map
lookup misses (`nil` slice) or the index is out of range — both are a Go
panic at the indexing site. -/
def acquiredLabelOf (st : PresentState) (sw imgID : Nat) : Option Nat :=
  (lookupA st.swapchainImageAcquired sw).bind (fun ls => ls.get? imgID)

/-- `vb.swapchainImagePresented[sw][imgID]`. -/
def presentedLabelOf (st : PresentState) (sw imgID : Nat) : Option Nat :=
  (lookupA st.swapchainImagePresented sw).bind (fun ls => ls.get? imgID)

/-- The wait-semaphore loop stamped on each extra presentation behavior
(`footprint_builder.go:1814-1819`): per wait semaphore, read the queue
handle and, when the semaphore handle is non-null, read its signal
label. -/
def presentWaitSemReads (sems : List (Nat × Nat)) (queue : Nat) :
    MemRecords → List Nat → Behavior → MemRecords × Behavior
  | r, [], bh => (r, bh)
  | r, sp :: rest, bh =>
      let s0 := read r bh [DefUseVariable.vkHandle queue]
      let s1 := read s0.1 s0.2.1 [DefUseVariable.vkHandle sp]
      if s1.2.2 then
        let s2 := read s1.1 s1.2.1 [semLabelVar sems sp]
        presentWaitSemReads sems queue s2.1 rest s2.2.1
      else presentWaitSemReads sems queue s1.1 rest s1.2.1

/-- Source: the extra behavior built for one presented image inside the
`VkQueuePresentKHR` arm (`footprint_builder.go:1809-1823`): read the
acquired label, write the presented label, mark the behavior alive.  `none`
is the Go panic on a missing swapchain label slot. -/
def presentExtraBehavior (st : PresentState) (cmdId queue : Nat)
    (waitSems : List Nat) (sw imgID : Nat) : Option Behavior :=
  let w := presentWaitSemReads st.semaphoreSignals queue st.records waitSems
    (Behavior.new [cmdId])
  match acquiredLabelOf st sw imgID with
  | none => none
  | some acq =>
    let s1 := read w.1 w.2 [DefUseVariable.label acq]
    match presentedLabelOf st sw imgID with
    | none => none
    | some pres =>
      let s2 := write s1.1 s1.2.1 [DefUseVariable.label pres]
      some { s2.2.1 with alive := true }

/-- Source: the per-swapchain loop of the `VkQueuePresentKHR` arm
(`footprint_builder.go:1801-1824`), restricted to the extra behaviors it
adds to the footprint (the reads stamped on the command's main behavior —
swapchain handles and image data — do not touch the extra behaviors and are
not modelled here; the main behavior is appended to the footprint by the
shared tail of `BuildFootprint`, not by this loop). -/
def vkQueuePresentExtras (st : PresentState) (cmdId queue : Nat)
    (waitSems : List Nat) : List (Nat × Nat) → Option PresentState
  | [] => some st
  | (sw, imgID) :: rest =>
    match presentExtraBehavior st cmdId queue waitSems sw imgID with
    | none => none
    | some bh =>
        vkQueuePresentExtras
          { st with footprint := st.footprint ++ [bh] }
          cmdId queue waitSems rest

/-- Source: `imageLayoutAndData` — layout label, opaque binding list and
sparse bindings.  The four-level sparse map is flattened to a list of
(binding token, backing data) pairs: Go's map iteration order is
unspecified anyway, and no claim depends on the keys. -/
structure imageLayoutAndData where
  layout : Nat
  opaqueData : List resBinding
  sparseData : List (Nat × DefUseVariable)
deriving DecidableEq, Repr

/-- The sparse-block loop of `getImageData`
(`footprint_builder.go:1166-1177`): read each sparse binding variable (when
recording on a behavior) and collect its backing data. -/
def sparseReads (r : MemRecords) (bh : Option Behavior) :
    List (Nat × DefUseVariable) →
      MemRecords × Option Behavior × List DefUseVariable
  | [] => (r, bh, [])
  | (tok, bdata) :: rest =>
      match bh with
      | some b =>
          let s := read r b [DefUseVariable.sparseBindingVar tok]
          let t := sparseReads s.1 (some s.2.1) rest
          (t.1, t.2.1, bdata :: t.2.2)
      | none =>
          let t := sparseReads r none rest
          (t.1, t.2.1, bdata :: t.2.2)

/-- Source: `FootprintBuilder.getImageData`
(`footprint_builder.go:1152-1179`).  With a recording behavior (`bh` non-nil)
the source reads the image handle (failing only for the null handle, which
returns no data) and then dereferences `vb.images[vkImg].layout` — a `nil`
pointer, hence a panic (`none`), when the image has no shadow entry; the
`vb.images[vkImg] == nil` guard sits only after that dereference and so
protects only the `bh == nil` path.  On success the opaque bound data and
the sparse backing data are returned. -/
def getImageData (images : List (Nat × imageLayoutAndData)) (r : MemRecords)
    (bh : Option Behavior) (vkImg : Nat) :
    Option (MemRecords × Option Behavior × List DefUseVariable) :=
  match bh with
  | some b =>
      let s := read r b [DefUseVariable.vkHandle vkImg]
      if !s.2.2 then some (s.1, some s.2.1, [])
      else
        match lookupA images vkImg with
        | none => none
        | some entry =>
            let s2 := read s.1 s.2.1 [DefUseVariable.label entry.layout]
            if !s2.2.2 then some (s2.1, some s2.2.1, [])
            else
              let t := sparseReads s2.1 (some s2.2.1) entry.sparseData
              (some (t.1, t.2.1,
                getBoundData entry.opaqueData 0 vkWholeSize ++ t.2.2))
  | none =>
      match lookupA images vkImg with
      | none => some (r, none, [])
      | some entry =>
          let t := sparseReads r none entry.sparseData
          some (t.1, t.2.1,
            getBoundData entry.opaqueData 0 vkWholeSize ++ t.2.2)

/-- Source: the `VkCreateImageView` arm of `BuildFootprint`
(`footprint_builder.go:1696-1699`): write the new view handle, then read
the image's data through `getImageData` — so the arm panics (`none`)
whenever `getImageData` does. -/
def vkCreateImageViewArm (images : List (Nat × imageLayoutAndData))
    (r : MemRecords) (bh : Behavior) (view img : Nat) :
    Option (MemRecords × Behavior) :=
  let w := write r bh [DefUseVariable.vkHandle view]
  match getImageData images w.1 (some w.2.1) img with
  | none => none
  | some (r2, obh, data) =>
      let b2 := match obh with | some b => b | none => w.2.1
      let s := read r2 b2 data
      some (s.1, s.2.1)

/-! Concrete instances used by the witnesses and counterexamples below. -/

/-- A trivial `behave`-closure runner: records no footprint behaviors. -/
def rcTriv : List Nat → queueExecutionState → queueExecutionState × List Behavior :=
  fun _ q => (q, [])

/-- Recorded spans of device memory 1 after a write of `[1,3)` followed by a
write of `[2,4)`: the first span was trimmed to `[1,2)`. -/
def recsW : MemRecords := [(1, [⟨1, 2⟩, ⟨2, 4⟩])]

/-- A submit whose two pending commands will be observed out of order. -/
def infoC2 : queueSubmitInfo :=
  ⟨5, false, 10, 11, [], [], 0, [⟨[1, 0, 0, 0]⟩, ⟨[1, 0, 0, 1]⟩]⟩

/-- Builder state holding `infoC2` as submit 1 on queue 5. -/
def stC2 : RollState :=
  ⟨[], [], [], [(1, infoC2)], [(5, ⟨0, [0, 0, 0, 0]⟩)], [], []⟩

/-- The state after `rollOutExecuted` observes `[1,0,0,1]` first: the begin
behavior was emitted, the divergence was logged, nothing was consumed. -/
def stC2out : RollState :=
  ⟨[], [], [], [(1, { infoC2 with began := true })],
   [(5, ⟨0, [0, 0, 0, 0]⟩)], [Behavior.new [1]], [execOrderErrMsg]⟩

/-- A begun submit with one pending command, one signal semaphore (7) and a
null signal fence. -/
def infoC3 : queueSubmitInfo :=
  ⟨5, true, 10, 11, [], [7], 0, [⟨[1, 0, 0, 0]⟩]⟩

/-- Builder state for the null-signal-fence scenario: semaphore 7 has
signal label 20; the fences map holds an (unrelated) fence 6. -/
def stC3 : RollState :=
  ⟨[], [(7, 20)], [(6, ⟨40, 41⟩)], [(1, infoC3)], [(5, ⟨0, [0, 0, 0, 0]⟩)],
   [], []⟩

/-- The terminal behavior of the null-fence scenario: it reads `queued`
(label 10) and the semaphore handle, writes `done` (label 11) and the
semaphore signal label 20 — and no fence label. -/
def tC3 : Behavior :=
  ⟨[1], [.label 10, .vkHandle 7], [.label 11, .label 20], false, false⟩

/-- Same submit as `infoC3` but signalling fence 6 (which is registered with
signal label 40). -/
def infoC3w : queueSubmitInfo :=
  ⟨5, true, 10, 11, [], [7], 6, [⟨[1, 0, 0, 0]⟩]⟩

/-- Builder state for the registered-fence witness scenario. -/
def stC3w : RollState :=
  ⟨[], [(7, 20)], [(6, ⟨40, 41⟩)], [(1, infoC3w)], [(5, ⟨0, [0, 0, 0, 0]⟩)],
   [], []⟩

/-- A binding whose backing data is a label, not a memory span (a
swapchain-owned image binding has this shape). -/
def bN : resBinding := ⟨0, 16, .label 99⟩

/-- A span-backed binding over resource range `[0,16)` backed by
`[100,116)` of device memory 1. -/
def bS : resBinding := ⟨0, 16, .memorySpan 1 ⟨100, 116⟩⟩

/-- A span-backed binding over `[0,16)` backed by `[0,16)` of memory 1. -/
def bS2 : resBinding := ⟨0, 16, .memorySpan 1 ⟨0, 16⟩⟩

/-- A label-backed binding over resource range `[16,32)`. -/
def bN2 : resBinding := ⟨16, 16, .label 5⟩

/-- An index-buffer binding list: `[0,100)` backed by `[0,100)` of device
memory 1. -/
def ibC7 : List resBinding := [⟨0, 100, .memorySpan 1 ⟨0, 100⟩⟩]

/-- Command-buffer state: buffer 2 has a shadow entry and two deferred
commands recorded before the reset. -/
def stC5 : CBState := ⟨[], [(2, ⟨30, 31, 32⟩)], [(2, [100, 101])]⟩

/-- Presentation state: swapchain 3 has two images with acquired labels
`[50,51]` and presented labels `[60,61]`; semaphore 7 has signal label
20. -/
def stC6 : PresentState :=
  ⟨[], [(7, 20)], [(3, [50, 51])], [(3, [60, 61])], []⟩

/-! Arithmetic lemmas about the `uint64` wrappers. -/

theorem u64add_eq {a b : Nat} (h : a + b < U64MOD) : u64add a b = a + b :=
  Nat.mod_eq_of_lt h

theorem u64sub_eq {a b : Nat} (hba : b ≤ a) (ha : a < U64MOD) :
    u64sub a b = a - b := by
  unfold u64sub U64MOD at *
  omega

theorem u64add_not_lt {a b : Nat} (h : a + b < U64MOD) :
    ¬ u64add a b < a := by
  rw [u64add_eq h]; omega

theorem u64add_wrap_lt {a b : Nat} (ha : a < U64MOD) (hb : b < U64MOD)
    (h : U64MOD ≤ a + b) : u64add a b < a := by
  unfold u64add
  have h2 : (a + b) % U64MOD = a + b - U64MOD := by
    rw [Nat.mod_eq_sub_mod h, Nat.mod_eq_of_lt (by omega)]
  omega

/-! List lemmas: the loop over the indices returned by `interval.Intersect`
visits exactly the members that overlap the query, provided the list is
sorted with non-empty members. -/

theorem overlaps_eq_true {a b : U64Span} :
    overlaps a b = true ↔ a.start < b.stop ∧ b.start < a.stop := by
  simp [overlaps]

theorem overlaps_eq_false {a b : U64Span} :
    overlaps a b = false ↔ b.stop ≤ a.start ∨ a.stop ≤ b.start := by
  simp [overlaps]
  omega

theorem dropWhile_head_not (p : α → Bool) :
    ∀ (l : List α) (y : α) (ys : List α),
      l.dropWhile p = y :: ys → p y = false := by
  intro l
  induction l with
  | nil => intro y ys h; simp [List.dropWhile] at h
  | cons a l ih =>
      intro y ys h
      by_cases hpa : p a
      · rw [List.dropWhile_cons_of_pos hpa] at h
        exact ih y ys h
      · rw [List.dropWhile_cons_of_neg hpa] at h
        cases h
        simpa using hpa

theorem filter_eq_takeWhile_of_sorted (spanOf : α → U64Span) (s : U64Span)
    (x : α) (xs : List α)
    (hpw : (x :: xs).Pairwise (fun a b => (spanOf a).stop ≤ (spanOf b).start))
    (hne : ∀ z ∈ x :: xs, (spanOf z).start < (spanOf z).stop)
    (hpx : overlaps (spanOf x) s = true) :
    xs.filter (fun z => overlaps (spanOf z) s)
      = xs.takeWhile (fun z => overlaps (spanOf z) s) := by
  set p : α → Bool := fun z => overlaps (spanOf z) s with hp
  have hdecomp := List.takeWhile_append_dropWhile (p := p) (l := xs)
  have hdropnone : ∀ z ∈ xs.dropWhile p, p z = false := by
    rcases hdw : xs.dropWhile p with _ | ⟨y, ys⟩
    · simp
    · intro z hz
      have hpy : p y = false := dropWhile_head_not p xs y ys hdw
      -- y is a member of xs, so x is sorted before y
      have hymem : y ∈ xs := by
        have : y ∈ xs.dropWhile p := by rw [hdw]; exact List.mem_cons_self y ys
        exact (List.dropWhile_sublist (p := p) (l := xs)).mem this
      have hxy : (spanOf x).stop ≤ (spanOf y).start :=
        (List.pairwise_cons.mp hpw).1 y hymem
      have hyne : (spanOf y).start < (spanOf y).stop := by
        exact hne y (List.mem_cons_of_mem x hymem)
      -- unpack the overlap of x with s
      have hxov : (spanOf x).start < s.stop ∧ s.start < (spanOf x).stop :=
        overlaps_eq_true.mp hpx
      -- from the failure at y: s ends before y starts
      have hsy : s.stop ≤ (spanOf y).start := by
        rcases overlaps_eq_false.mp hpy with h1 | h1
        · omega
        · omega
      rcases List.mem_cons.mp hz with hzy | hzys
      · subst hzy; exact hpy
      · -- z comes after y in the sorted list
        have hyz : (spanOf y).stop ≤ (spanOf z).start := by
          have hsub : (xs.dropWhile p).Pairwise
              (fun a b => (spanOf a).stop ≤ (spanOf b).start) :=
            (List.pairwise_cons.mp hpw).2.sublist
              (List.dropWhile_sublist (p := p) (l := xs))
          rw [hdw] at hsub
          exact (List.pairwise_cons.mp hsub).1 z hzys
        exact overlaps_eq_false.mpr (by omega)
  calc xs.filter p
      = (xs.takeWhile p ++ xs.dropWhile p).filter p := by rw [hdecomp]
    _ = xs.takeWhile p ++ [] := by
        rw [List.filter_append]
        congr 1
        · exact List.filter_eq_self.mpr (fun a ha => List.mem_takeWhile_imp ha)
        · exact List.filter_eq_nil_iff.mpr (fun a ha => by simp [hdropnone a ha])
    _ = xs.takeWhile p := by simp

theorem slice_intersectBy_eq_filter (spanOf : α → U64Span) (s : U64Span) :
    ∀ (l : List α),
      l.Pairwise (fun a b => (spanOf a).stop ≤ (spanOf b).start) →
      (∀ z ∈ l, (spanOf z).start < (spanOf z).stop) →
      slice l (intersectBy spanOf l s).1 (intersectBy spanOf l s).2
        = l.filter (fun z => overlaps (spanOf z) s) := by
  intro l
  induction l with
  | nil => intro _ _; rfl
  | cons x xs ih =>
      intro hpw hne
      set p : α → Bool := fun z => overlaps (spanOf z) s with hp
      by_cases hpx : p x
      · -- the head overlaps: the overlapping members are a prefix
        have hfil : xs.filter p = xs.takeWhile p :=
          filter_eq_takeWhile_of_sorted spanOf s x xs hpw hne hpx
        have hfind : (x :: xs).findIdx p = 0 := by
          simp [List.findIdx_cons, hpx]
        have hfc : (x :: xs).filter p = x :: xs.filter p := by
          simp [List.filter_cons, hpx]
        unfold intersectBy slice
        rw [hfind, hfc]
        simp only [List.drop_zero, List.length_cons, List.take_succ_cons]
        congr 1
        rw [hfil]
        have hdecomp := (List.takeWhile_append_dropWhile (p := p) (l := xs)).symm
        calc xs.take (xs.takeWhile p).length
            = (xs.takeWhile p ++ xs.dropWhile p).take (xs.takeWhile p).length := by
              rw [← hdecomp]
          _ = xs.takeWhile p := List.take_left _ _
      · have hfind : (x :: xs).findIdx p = xs.findIdx p + 1 := by
          simp [List.findIdx_cons, hpx]
        have hfc : (x :: xs).filter p = xs.filter p := by
          simp [List.filter_cons, hpx]
        have ihx := ih (List.pairwise_cons.mp hpw).2
          (fun z hz => hne z (List.mem_cons_of_mem x hz))
        unfold intersectBy slice at ihx ⊢
        rw [hfind, hfc, List.drop_succ_cons]
        exact ihx

/-! Emitter lemmas. -/

theorem foldl_Read_eq (f : β → DefUseVariable) :
    ∀ (l : List β) (bh : Behavior),
      l.foldl (fun b s => b.Read (f s)) bh
        = { bh with reads := bh.reads ++ l.map f } := by
  intro l
  induction l with
  | nil => intro bh; simp
  | cons x xs ih =>
      intro bh
      simp only [List.foldl_cons, List.map_cons]
      rw [ih]
      simp [Behavior.Read, List.append_assoc]

theorem readOne_memorySpan (r : MemRecords) (bh : Behavior) (mem : Nat)
    (sp : U64Span) (hmem : mem ≠ 0) (hwf : wfSpans (recLookup r mem)) :
    readOne r bh (.memorySpan mem sp)
      = (r, bh.withReads
            (((recLookup r mem).filter (fun x => overlaps x sp)).map
              (fun s => DefUseVariable.memorySpan mem s)), true) := by
  unfold readOne
  simp only [hmem, if_false]
  have hslice := slice_intersectBy_eq_filter (fun x : U64Span => x) sp
    (recLookup r mem) hwf.1 hwf.2
  have : intersect (recLookup r mem) sp
      = intersectBy (fun x : U64Span => x) (recLookup r mem) sp := rfl
  rw [this, hslice, foldl_Read_eq]
  rfl

/-- Claim C1: for every behavior and memory-span variable, `read`
intersects the span against the device memory's recorded-spans list and
reads exactly the overlapping recorded spans, adding nothing to the list;
`write` duplicates the span, merges the duplicate into the recorded-spans
list (`addBinding`) and records the write on the duplicate; consequently a
read of `[1,4)` after writes of `[1,3)` and `[2,4)` reads both covering
spans `[1,2)` and `[2,4)`. -/
theorem C1_memory_span_read_write (r : MemRecords) (bh : Behavior)
    (mem : Nat) (sp : U64Span) (hmem : mem ≠ 0)
    (hwf : wfSpans (recLookup r mem)) :
    readOne r bh (.memorySpan mem sp)
        = (r, bh.withReads
              (((recLookup r mem).filter (fun x => overlaps x sp)).map
                (fun s => DefUseVariable.memorySpan mem s)), true) ∧
    writeOne r bh (.memorySpan mem sp)
        = (recUpdate r mem (addBinding (recLookup r mem) sp),
           bh.withWrites [.memorySpan mem sp], true) ∧
    ((writeOne
        ((writeOne [] (Behavior.new [0]) (.memorySpan 1 ⟨1, 3⟩)).1)
        (Behavior.new [0]) (.memorySpan 1 ⟨2, 4⟩)).1
      = recsW ∧
     (readOne recsW (Behavior.new [9]) (.memorySpan 1 ⟨1, 4⟩)).2.1.reads
      = [.memorySpan 1 ⟨1, 2⟩, .memorySpan 1 ⟨2, 4⟩]) := by
  refine ⟨readOne_memorySpan r bh mem sp hmem hwf, ?_, by decide, by decide⟩
  unfold writeOne
  simp [hmem, Behavior.Write, Behavior.withWrites]

/-- Witness for C1 at device memory 1 with the recorded spans `[1,2)`,
`[2,4)` and the read span `[1,4)`. -/
theorem C1_witness :
    (1 ≠ 0 ∧ wfSpans (recLookup recsW 1)) ∧
    readOne recsW (Behavior.new [9]) (.memorySpan 1 ⟨1, 4⟩)
      = (recsW, (Behavior.new [9]).withReads
            (((recLookup recsW 1).filter (fun x => overlaps x ⟨1, 4⟩)).map
              (fun s => DefUseVariable.memorySpan 1 s)), true) :=
  ⟨⟨by decide, by constructor <;> decide⟩,
   (C1_memory_span_read_write recsW (Behavior.new [9]) 1 ⟨1, 4⟩ (by decide)
     ⟨by decide, by decide⟩).1⟩

/-- Claim C10: a read or a write of a memory-span variable whose device
memory is the null handle records nothing — no read edge, no merge into the
recorded-spans list — yet still returns `true`; a null Vulkan handle, in
contrast, records nothing and returns `false`. -/
theorem C10_null_memory_span (r : MemRecords) (bh : Behavior)
    (sp : U64Span) :
    read r bh [.memorySpan 0 sp] = (r, bh, true) ∧
    write r bh [.memorySpan 0 sp] = (r, bh, true) ∧
    read r bh [.vkHandle 0] = (r, bh, false) ∧
    write r bh [.vkHandle 0] = (r, bh, false) := by
  refine ⟨?_, ?_, ?_, ?_⟩ <;> simp [read, write, readOne, writeOne]

/-! Binding-engine lemmas. -/

theorem filterMap_eq_map_of_some (g : α → Option β) (f : α → β) :
    ∀ (l : List α), (∀ x ∈ l, g x = some (f x)) →
      l.filterMap g = l.map f := by
  intro l
  induction l with
  | nil => intro _; rfl
  | cons x xs ih =>
      intro h
      rw [List.filterMap_cons, h x (List.mem_cons_self x xs), List.map_cons,
        ih (fun z hz => h z (List.mem_cons_of_mem x hz))]

theorem subBindingAt_eq (q : U64Span) (bd : resBinding) :
    subBindingAt q bd
      = bd.newSubBinding (u64sub (max bd.span.start q.start) bd.span.start)
          (u64sub (min bd.span.stop q.stop) (max bd.span.start q.start)) :=
  rfl

theorem subBindingAt_eq_clip (q : U64Span) (bd : resBinding)
    (h0 : 0 < bd.bindSize) (h1 : bd.resourceOffset + bd.bindSize < U64MOD)
    (h2 : bd.bindSize < vkWholeSize) (hsb : spanBacked bd)
    (hov : overlaps bd.span q = true) (hqle : q.start ≤ q.stop) :
    subBindingAt q bd = Except.ok (clipBinding q bd) := by
  obtain ⟨mem, msp, hback, hmspB⟩ := hsb
  have hWM : vkWholeSize + 1 = U64MOD := by unfold vkWholeSize U64MOD; omega
  have hstart : bd.span.start = bd.resourceOffset := rfl
  have hstop : bd.span.stop = bd.resourceOffset + bd.bindSize := by
    simp [resBinding.span, u64add_eq h1]
  have hovP := overlaps_eq_true.mp hov
  have hUb : bd.span.stop < U64MOD := by omega
  set A := max bd.span.start q.start with hA
  set B := min bd.span.stop q.stop with hB
  have hsA : bd.span.start ≤ A := le_max_left _ _
  have hAB : A ≤ B :=
    le_min (max_le (by omega) (le_of_lt hovP.2))
      (max_le (le_of_lt hovP.1) hqle)
  have hBs : B ≤ bd.span.stop := min_le_left _ _
  have hBU : B < U64MOD := lt_of_le_of_lt hBs hUb
  have hoffv : u64sub A bd.span.start = A - bd.span.start :=
    u64sub_eq hsA (lt_of_le_of_lt hAB hBU)
  have hsizev : u64sub B A = B - A := u64sub_eq hAB hBU
  have hns : (if B - A = vkWholeSize
        then u64sub bd.size (A - bd.span.start) else B - A) = B - A := by
    apply if_neg
    unfold resBinding.size at *
    omega
  have haddv : u64add (A - bd.span.start) (B - A) = B - bd.span.start := by
    rw [u64add_eq (by omega)]
    omega
  have hcond : ¬ (B - bd.span.start < A - bd.span.start ∨
      B - bd.span.start > bd.size) := by
    unfold resBinding.size at *
    omega
  have hu1 : u64add bd.resourceOffset (A - bd.span.start) = A := by
    rw [u64add_eq (by omega)]
    omega
  have hu2 : u64add msp.start (A - bd.span.start)
      = msp.start + (A - bd.span.start) := by
    rw [u64add_eq (by omega)]
  have hu3 : u64add (msp.start + (A - bd.span.start)) (B - A)
      = msp.start + (A - bd.span.start) + (B - A) := by
    rw [u64add_eq (by omega)]
  rw [subBindingAt_eq, ← hA, ← hB, hoffv, hsizev]
  simp only [resBinding.newSubBinding, resBinding.shrink, hns, haddv,
    if_neg hcond, hback, clipBinding, ← hA, ← hB, hu1, hu2, hu3]

theorem getSubBindingListCore_eq (l : List resBinding) (offset sz : Nat) :
    getSubBindingListCore l offset sz
      = (slice l (intersectBy resBinding.span l ⟨offset, u64add offset sz⟩).1
          (intersectBy resBinding.span l ⟨offset, u64add offset sz⟩).2).filterMap
          (fun bd => (subBindingAt ⟨offset, u64add offset sz⟩ bd).toOption) :=
  rfl

theorem wf_span_ne (l : List resBinding) (hwf : wfBindings l) :
    ∀ bd ∈ l, (resBinding.span bd).start < (resBinding.span bd).stop := by
  intro bd hbd
  obtain ⟨hb0, hb1, _⟩ := hwf.2 bd hbd
  simp [resBinding.span, u64add_eq hb1]
  omega

theorem getSubBindingListCore_eq_clip (l : List resBinding) (offset sz : Nat)
    (hwf : wfBindings l) (hsb : ∀ bd ∈ l, spanBacked bd)
    (hq : offset + sz < U64MOD) :
    getSubBindingListCore l offset sz
      = (l.filter (fun bd => overlaps bd.span ⟨offset, offset + sz⟩)).map
          (clipBinding ⟨offset, offset + sz⟩) := by
  rw [getSubBindingListCore_eq, u64add_eq hq,
    slice_intersectBy_eq_filter resBinding.span ⟨offset, offset + sz⟩ l
      hwf.1 (wf_span_ne l hwf)]
  apply filterMap_eq_map_of_some
  intro bd hbd
  have hmem := List.mem_filter.mp hbd
  obtain ⟨hb0, hb1, hb2⟩ := hwf.2 bd hmem.1
  rw [subBindingAt_eq_clip ⟨offset, offset + sz⟩ bd hb0 hb1 hb2
    (hsb bd hmem.1) hmem.2 (Nat.le_add_right offset sz)]
  rfl

/-- Claim C4 (amended): on a sorted, non-overlapping list of span-backed
bindings, `getSubBindingList` returns exactly the bindings intersecting
`[offset, offset+size)`, in order, each clipped to the intersection with
the memory span shrunk accordingly; when `offset+size` wraps past `2^64`,
the requested range is clamped so that its end equals `vkWholeSize`.
(Amended from the original claim: a boundary binding whose backing data is
not a memory span is dropped, not clipped — see the counterexample — so the
clipping statement is restricted to span-backed bindings.) -/
theorem C4_getSubBindingList_clips (l : List resBinding) (offset size : Nat)
    (hwf : wfBindings l) (hsb : ∀ bd ∈ l, spanBacked bd)
    (hoff : offset < U64MOD) (hsize : size < U64MOD) :
    (offset + size < U64MOD →
      getSubBindingList l offset size
        = (l.filter (fun bd => overlaps bd.span ⟨offset, offset + size⟩)).map
            (clipBinding ⟨offset, offset + size⟩)) ∧
    (U64MOD ≤ offset + size →
      getSubBindingList l offset size
        = (l.filter (fun bd => overlaps bd.span ⟨offset, vkWholeSize⟩)).map
            (clipBinding ⟨offset, vkWholeSize⟩)) := by
  constructor
  · intro h
    unfold getSubBindingList
    rw [if_neg (u64add_not_lt h)]
    exact getSubBindingListCore_eq_clip l offset size hwf hsb h
  · intro h
    unfold getSubBindingList
    rw [if_pos (u64add_wrap_lt hoff hsize h)]
    have hle : offset ≤ vkWholeSize := by unfold vkWholeSize U64MOD at *; omega
    have hwl : vkWholeSize < U64MOD := by unfold vkWholeSize U64MOD; omega
    rw [u64sub_eq hle hwl]
    have hqe : offset + (vkWholeSize - offset) = vkWholeSize := by omega
    rw [getSubBindingListCore_eq_clip l offset (vkWholeSize - offset) hwf hsb
      (by omega), hqe]

/-- Counterexample to C4 as stated: a binding whose backing data is a label
(not a memory span) intersecting the boundary of the requested range is
dropped by `getSubBindingList`, not clipped as the claim demands. -/
theorem C4_counterexample :
    getSubBindingList [bN] 4 8 = [] ∧
    getSubBindingList [bN] 4 8
      ≠ ([bN].filter (fun bd => overlaps bd.span ⟨4, 4 + 8⟩)).map
          (clipBinding ⟨4, 4 + 8⟩) := by
  constructor
  · decide
  · decide

/-- Witness for C4 (amended) on the span-backed binding `bS` clipped by the
range `[4, 12)`. -/
theorem C4_witness :
    (wfBindings [bS] ∧ 4 + 8 < U64MOD) ∧
    getSubBindingList [bS] 4 8
      = ([bS].filter (fun bd => overlaps bd.span ⟨4, 4 + 8⟩)).map
          (clipBinding ⟨4, 4 + 8⟩) :=
  ⟨⟨⟨by decide, by decide⟩, by decide⟩,
   (C4_getSubBindingList_clips [bS] 4 8 ⟨by decide, by decide⟩
     (by
       intro bd hbd
       have : bd = bS := by simpa using hbd
       rw [this]
       exact ⟨1, ⟨100, 116⟩, rfl, by decide⟩)
     (by decide) (by decide)).1 (by decide)⟩

/-- Claim C8: when clipping a boundary binding fails — the clipped
sub-range exceeds the binding (`shrinkOutOfMemBindingBound`) or the binding
is not span-backed and the sub-range is not the whole binding — the
sub-binding is omitted (the source logs the error) while the other
sub-bindings are still returned in order, and the function returns normally
to its caller.  The first conjunct shows the result is exactly the
per-binding clip with failures dropped; the second characterizes exactly
when `shrink` fails. -/
theorem C8_clip_errors_dropped :
    (∀ (l : List resBinding) (offset size : Nat), wfBindings l →
      offset + size < U64MOD →
      getSubBindingList l offset size
        = (l.filter (fun bd => overlaps bd.span ⟨offset, offset + size⟩)).filterMap
            (fun bd => (subBindingAt ⟨offset, offset + size⟩ bd).toOption)) ∧
    (∀ (bd : resBinding) (offset size : Nat), offset + size < U64MOD →
      size ≠ vkWholeSize →
      ((bd.shrink offset size).toOption = none ↔
        (bd.bindSize < offset + size ∨
         ((∀ mem msp, bd.backingData ≠ .memorySpan mem msp) ∧
          (offset ≠ 0 ∨ size ≠ bd.bindSize))))) := by
  constructor
  · intro l offset size hwf hq
    unfold getSubBindingList
    rw [if_neg (u64add_not_lt hq)]
    rw [getSubBindingListCore_eq, u64add_eq hq,
      slice_intersectBy_eq_filter resBinding.span ⟨offset, offset + size⟩ l
        hwf.1 (wf_span_ne l hwf)]
  · intro bd offset size hq hsz
    have hns : (if size = vkWholeSize
          then u64sub bd.bindSize offset else size) = size := if_neg hsz
    by_cases hb : bd.bindSize < offset + size
    · have hcond : u64add offset size < offset ∨
          bd.bindSize < u64add offset size := by
        right
        rw [u64add_eq hq]
        omega
      simp only [resBinding.shrink, resBinding.size, hns, if_pos hcond,
        Except.toOption]
      simp [hb]
    · have hcond : ¬ (u64add offset size < offset ∨
          bd.bindSize < u64add offset size) := by
        rw [u64add_eq hq]
        omega
      rcases hback : bd.backingData with h | n | n | ⟨mem, sp⟩ | n | n | - | n
      all_goals simp only [resBinding.shrink, resBinding.size, hns,
        if_neg hcond, hback, Except.toOption]
      pick_goal 4
      · constructor
        · intro habs
          simp at habs
        · rintro (habs | ⟨hall, -⟩)
          · exact absurd habs hb
          · exact (hall mem sp rfl).elim
      all_goals by_cases hd : offset = 0
      all_goals by_cases he : size = bd.bindSize
      all_goals simp [hb, hd, he]

/-- Claim C7 (amended): an executed `VkCmdDrawIndexed` makes the draw's
behavior read the bound index buffer's data over the byte range starting at
`firstIndex*indexSize` of length `indexCount*indexSize`, i.e.
`[firstIndex*indexSize, firstIndex*indexSize + indexCount*indexSize)`,
where `indexSize` is 2 for `VK_INDEX_TYPE_UINT16` and 4 for
`VK_INDEX_TYPE_UINT32`.  (Amended from the original claim, whose interval
`[firstIndex*indexSize, indexCount*indexSize)` has the wrong right
endpoint whenever `firstIndex > 0` — see the counterexample.) -/
theorem C7_indexed_draw_reads (bindings : List resBinding)
    (ty : VkIndexType) (ic fi : Nat) (hwf : wfBindings bindings)
    (hsb : ∀ bd ∈ bindings, spanBacked bd)
    (hb : fi * ty.size + ic * ty.size < U64MOD) :
    readBoundIndexBufferData bindings ty (.VkCmdDrawIndexed ic fi)
      = (bindings.filter (fun bd => overlaps bd.span
            ⟨fi * ty.size, fi * ty.size + ic * ty.size⟩)).map
          (fun bd => (clipBinding
            ⟨fi * ty.size, fi * ty.size + ic * ty.size⟩ bd).backingData) ∧
    VkIndexType.size .uint16 = 2 ∧ VkIndexType.size .uint32 = 4 := by
  refine ⟨?_, rfl, rfl⟩
  have hm1 : u64mul fi ty.size = fi * ty.size := by
    have h : fi * ty.size < U64MOD := by omega
    unfold u64mul
    exact Nat.mod_eq_of_lt h
  have hm2 : u64mul ic ty.size = ic * ty.size := by
    have h : ic * ty.size < U64MOD := by omega
    unfold u64mul
    exact Nat.mod_eq_of_lt h
  have hm0 : u64add 0 (fi * ty.size) = fi * ty.size := by
    have h : 0 + fi * ty.size < U64MOD := by omega
    unfold u64add
    rw [Nat.mod_eq_of_lt h, Nat.zero_add]
  unfold readBoundIndexBufferData getBoundData
  simp only [hm1, hm2, hm0]
  unfold getSubBindingList
  rw [if_neg (u64add_not_lt hb),
    getSubBindingListCore_eq_clip bindings (fi * ty.size) (ic * ty.size)
      hwf hsb hb, List.map_map]
  rfl

/-- Counterexample to C7 as stated: with `VK_INDEX_TYPE_UINT16`,
`firstIndex = 1` and `indexCount = 2`, the draw reads the backing span of
resource bytes `[2, 6)` — not the data over the literal half-open interval
`[firstIndex*indexSize, indexCount*indexSize) = [2, 4)`. -/
theorem C7_counterexample :
    readBoundIndexBufferData ibC7 .uint16 (.VkCmdDrawIndexed 2 1)
        = [.memorySpan 1 ⟨2, 6⟩] ∧
    readBoundIndexBufferData ibC7 .uint16 (.VkCmdDrawIndexed 2 1)
        ≠ getBoundData ibC7 (1 * 2) (2 * 2 - 1 * 2) := by
  constructor
  · decide
  · decide

/-- Witness for C7 (amended) on the index-buffer binding list `ibC7`. -/
theorem C7_witness :
    (wfBindings ibC7 ∧
      1 * VkIndexType.size .uint16 + 2 * VkIndexType.size .uint16 < U64MOD) ∧
    readBoundIndexBufferData ibC7 .uint16 (.VkCmdDrawIndexed 2 1)
      = (ibC7.filter (fun bd => overlaps bd.span
            ⟨1 * VkIndexType.size .uint16,
             1 * VkIndexType.size .uint16 + 2 * VkIndexType.size .uint16⟩)).map
          (fun bd => (clipBinding
            ⟨1 * VkIndexType.size .uint16,
             1 * VkIndexType.size .uint16 + 2 * VkIndexType.size .uint16⟩
            bd).backingData) :=
  ⟨⟨⟨by decide, by decide⟩, by decide⟩,
   (C7_indexed_draw_reads ibC7 .uint16 2 1 ⟨by decide, by decide⟩
     (by
       intro bd hbd
       have : bd = ⟨0, 100, .memorySpan 1 ⟨0, 100⟩⟩ := by simpa [ibC7] using hbd
       rw [this]
       exact ⟨1, ⟨0, 100⟩, rfl, by decide⟩)
     (by decide)).1⟩

/-! Association-list and emitter-step lemmas for the rollout engine. -/

theorem lookupA_cons (a : Nat) (b : α) (l : List (Nat × α)) (k : Nat) :
    lookupA ((a, b) :: l) k = if a = k then some b else lookupA l k := by
  unfold lookupA
  by_cases h : a = k
  · simp [List.find?_cons, h]
  · simp [List.find?_cons, h]

theorem updateA_cons (a : Nat) (b : α) (l : List (Nat × α)) (k : Nat)
    (v : α) :
    updateA ((a, b) :: l) k v
      = (if a = k then (k, v) else (a, b)) :: updateA l k v := by
  unfold updateA
  simp only [List.map_cons]

theorem lookupA_updateA_self (l : List (Nat × α)) (k : Nat) (v w : α)
    (h : lookupA l k = some w) : lookupA (updateA l k v) k = some v := by
  induction l with
  | nil => simp [lookupA] at h
  | cons p rest ih =>
      obtain ⟨a, b⟩ := p
      rw [lookupA_cons] at h
      rw [updateA_cons]
      by_cases hak : a = k
      · rw [if_pos hak, lookupA_cons, if_pos rfl]
      · rw [if_neg hak, lookupA_cons, if_neg hak]
        rw [if_neg hak] at h
        exact ih h

theorem lookupA_updateA_ne (l : List (Nat × α)) (k k' : Nat) (v : α)
    (h : k' ≠ k) : lookupA (updateA l k v) k' = lookupA l k' := by
  induction l with
  | nil => rfl
  | cons p rest ih =>
      obtain ⟨a, b⟩ := p
      rw [updateA_cons]
      by_cases hak : a = k
      · rw [if_pos hak, lookupA_cons, lookupA_cons,
          if_neg (fun hkk => h hkk.symm), if_neg (by omega)]
        exact ih
      · rw [if_neg hak, lookupA_cons, lookupA_cons]
        by_cases hak' : a = k'
        · rw [if_pos hak', if_pos hak']
        · rw [if_neg hak', if_neg hak']
          exact ih

theorem Behavior_new_fields (id : List Nat) :
    (Behavior.new id).reads = [] ∧ (Behavior.new id).writes = [] ∧
    (Behavior.new id).id = id := ⟨rfl, rfl, rfl⟩

theorem Behavior_Read_fields (b : Behavior) (v : DefUseVariable) :
    (b.Read v).reads = b.reads ++ [v] ∧ (b.Read v).writes = b.writes ∧
    (b.Read v).id = b.id := ⟨rfl, rfl, rfl⟩

theorem Behavior_Write_fields (b : Behavior) (v : DefUseVariable) :
    (b.Write v).writes = b.writes ++ [v] ∧ (b.Write v).reads = b.reads ∧
    (b.Write v).id = b.id := ⟨rfl, rfl, rfl⟩

theorem read_handle_ne (r : MemRecords) (bh : Behavior) (h : Nat)
    (hne : h ≠ 0) :
    read r bh [.vkHandle h] = (r, bh.Read (.vkHandle h), true) := by
  simp [read, readOne, hne]

theorem read_handle_zero (r : MemRecords) (bh : Behavior) :
    read r bh [.vkHandle 0] = (r, bh, false) := by
  simp [read, readOne]

theorem read_label_var (r : MemRecords) (bh : Behavior) (n : Nat) :
    read r bh [.label n] = (r, bh.Read (.label n), true) := by
  simp [read, readOne]

theorem write_label_var (r : MemRecords) (bh : Behavior) (n : Nat) :
    write r bh [.label n] = (r, bh.Write (.label n), true) := by
  simp [write, writeOne]

theorem write_semLabelVar (sems : List (Nat × Nat)) (sp : Nat)
    (r : MemRecords) (bh : Behavior) :
    write r bh [semLabelVar sems sp]
      = (r, bh.Write (semLabelVar sems sp), true) := by
  cases hl : lookupA sems sp <;> simp [semLabelVar, hl, write, writeOne]

theorem signalSemWrites_spec (sems : List (Nat × Nat)) :
    ∀ (l : List Nat) (r : MemRecords) (bh : Behavior),
      (∃ ws, (signalSemWrites sems r l bh).2.writes = bh.writes ++ ws) ∧
      (∃ rs, (signalSemWrites sems r l bh).2.reads = bh.reads ++ rs) ∧
      (signalSemWrites sems r l bh).2.id = bh.id ∧
      (∀ sp ∈ l, sp ≠ 0 →
        semLabelVar sems sp ∈ (signalSemWrites sems r l bh).2.writes) := by
  intro l
  induction l with
  | nil =>
      intro r bh
      refine ⟨⟨[], by simp [signalSemWrites]⟩, ⟨[], by simp [signalSemWrites]⟩,
        rfl, ?_⟩
      intro sp hsp
      simp at hsp
  | cons sp rest ih =>
      intro r bh
      by_cases hz : sp = 0
      · subst hz
        have hstep : signalSemWrites sems r (0 :: rest) bh
            = signalSemWrites sems r rest bh := by
          simp [signalSemWrites, read_handle_zero]
        rw [hstep]
        obtain ⟨hws, hrs, hid, hmem⟩ := ih r bh
        refine ⟨hws, hrs, hid, ?_⟩
        intro sp' hsp' hne
        rcases List.mem_cons.mp hsp' with h0 | hr
        · exact absurd h0 hne
        · exact hmem sp' hr hne
      · have hstep : signalSemWrites sems r (sp :: rest) bh
            = signalSemWrites sems r rest
                ((bh.Read (.vkHandle sp)).Write (semLabelVar sems sp)) := by
          simp [signalSemWrites, read_handle_ne r bh sp hz,
            write_semLabelVar]
        rw [hstep]
        obtain ⟨⟨ws, hws⟩, ⟨rs, hrs⟩, hid, hmem⟩ :=
          ih r ((bh.Read (.vkHandle sp)).Write (semLabelVar sems sp))
        refine ⟨⟨[semLabelVar sems sp] ++ ws, ?_⟩,
          ⟨[.vkHandle sp] ++ rs, ?_⟩, ?_, ?_⟩
        · rw [hws]
          simp [Behavior.Read, Behavior.Write]
        · rw [hrs]
          simp [Behavior.Read, Behavior.Write]
        · rw [hid]
          rfl
        · intro sp' hsp' hne
          rcases List.mem_cons.mp hsp' with h0 | hr
          · subst h0
            rw [hws]
            simp [Behavior.Read, Behavior.Write]
          · exact hmem sp' hr hne

theorem terminalStep_spec (st : RollState) (sid : Nat)
    (info : queueSubmitInfo)
    (hfence : info.signalFence = 0 ∨
      ∃ fl, lookupA st.fences info.signalFence = some fl) :
    ∃ st2 t, terminalStep st sid info = some st2 ∧
      st2.footprint = st.footprint ++ [t] ∧
      st2.submitInfos = st.submitInfos ∧
      st2.logs = st.logs ∧
      st2.semaphoreSignals = st.semaphoreSignals ∧
      st2.fences = st.fences ∧
      st2.executionStates = st.executionStates ∧
      t.id = [sid] ∧
      DefUseVariable.label info.queued ∈ t.reads ∧
      DefUseVariable.label info.done ∈ t.writes ∧
      (∀ sp ∈ info.signalSemaphores, sp ≠ 0 →
        semLabelVar st.semaphoreSignals sp ∈ t.writes) ∧
      (∀ fl, lookupA st.fences info.signalFence = some fl →
        info.signalFence ≠ 0 →
        DefUseVariable.label fl.signal ∈ t.writes) := by
  obtain ⟨⟨ws, hws⟩, ⟨rs, hrs⟩, hid, hmem⟩ :=
    signalSemWrites_spec st.semaphoreSignals info.signalSemaphores st.records
      (((Behavior.new [sid]).Read (.label info.queued)).Write
        (.label info.done))
  by_cases hf : info.signalFence = 0
  · have heq : terminalStep st sid info
        = some { st with
            records := (signalSemWrites st.semaphoreSignals st.records
              info.signalSemaphores (((Behavior.new [sid]).Read
                (.label info.queued)).Write (.label info.done))).1,
            footprint := st.footprint ++
              [(signalSemWrites st.semaphoreSignals st.records
                info.signalSemaphores (((Behavior.new [sid]).Read
                  (.label info.queued)).Write (.label info.done))).2] } := by
      simp only [terminalStep, terminalBehavior, read_label_var,
        write_label_var, hf, read_handle_zero, Bool.false_eq_true, if_false,
        Option.map_some']
    refine ⟨_, _, heq, rfl, rfl, rfl, rfl, rfl, rfl, ?_, ?_, ?_, ?_, ?_⟩
    · rw [hid]
      rfl
    · rw [hrs]
      simp [Behavior.Read, Behavior.Write, Behavior.new]
    · rw [hws]
      simp [Behavior.Read, Behavior.Write, Behavior.new]
    · exact hmem
    · intro fl _ hne
      exact absurd hf hne
  · rcases hfence with h0 | ⟨fl, hfl⟩
    · exact absurd h0 hf
    · have heq : terminalStep st sid info
          = some { st with
              records := (signalSemWrites st.semaphoreSignals st.records
                info.signalSemaphores (((Behavior.new [sid]).Read
                  (.label info.queued)).Write (.label info.done))).1,
              footprint := st.footprint ++
                [(((signalSemWrites st.semaphoreSignals st.records
                    info.signalSemaphores (((Behavior.new [sid]).Read
                      (.label info.queued)).Write (.label info.done))).2.Read
                  (.vkHandle info.signalFence)).Write
                    (.label fl.signal))] } := by
        simp only [terminalStep, terminalBehavior, read_label_var,
          write_label_var, read_handle_ne _ _ _ hf, hfl, if_true,
          Option.map_some']
      refine ⟨_, _, heq, rfl, rfl, rfl, rfl, rfl, rfl, ?_, ?_, ?_, ?_, ?_⟩
      · rw [(Behavior_Write_fields _ _).2.2, (Behavior_Read_fields _ _).2.2,
          hid]
        rfl
      · rw [(Behavior_Write_fields _ _).2.1, (Behavior_Read_fields _ _).1,
          hrs]
        simp [Behavior.Read, Behavior.Write, Behavior.new]
      · rw [(Behavior_Write_fields _ _).1, (Behavior_Read_fields _ _).2.1,
          hws]
        simp [Behavior.Read, Behavior.Write, Behavior.new]
      · intro sp hsp hne
        rw [(Behavior_Write_fields _ _).1, (Behavior_Read_fields _ _).2.1]
        exact List.mem_append_left _ (hmem sp hsp hne)
      · intro fl' hfl' hne
        rw [hfl] at hfl'
        cases hfl'
        rw [(Behavior_Write_fields _ _).1]
        simp

theorem applyBegan_fields (st : RollState) (sid : Nat)
    (info : queueSubmitInfo) :
    (applyBegan st sid info).1.semaphoreSignals = st.semaphoreSignals ∧
    (applyBegan st sid info).1.fences = st.fences ∧
    (applyBegan st sid info).1.executionStates = st.executionStates ∧
    (applyBegan st sid info).1.logs = st.logs ∧
    (applyBegan st sid info).2.queue = info.queue ∧
    (applyBegan st sid info).2.queued = info.queued ∧
    (applyBegan st sid info).2.done = info.done ∧
    (applyBegan st sid info).2.signalSemaphores = info.signalSemaphores ∧
    (applyBegan st sid info).2.signalFence = info.signalFence ∧
    (applyBegan st sid info).2.pendingCommands = info.pendingCommands ∧
    (applyBegan st sid info).1.footprint
      = st.footprint ++ (if info.began then [] else
          [(beganReads st.semaphoreSignals st.records info.waitSemaphores
             (Behavior.new [sid])).2]) := by
  by_cases h : info.began <;>
    simp [applyBegan, h]

theorem applyBegan_lookup (st : RollState) (sid : Nat)
    (info : queueSubmitInfo)
    (hlk : lookupA st.submitInfos sid = some info) :
    lookupA (applyBegan st sid info).1.submitInfos sid
      = some (applyBegan st sid info).2 := by
  by_cases h : info.began
  · simp [applyBegan, h, hlk]
  · simp only [applyBegan, h, Bool.false_eq_true, if_false]
    exact lookupA_updateA_self st.submitInfos sid _ info hlk

theorem applyBegan_pendingOf (st : RollState) (sid : Nat)
    (info : queueSubmitInfo)
    (hlk : lookupA st.submitInfos sid = some info) :
    ∀ s, pendingOf (applyBegan st sid info).1 s = pendingOf st s := by
  intro s
  by_cases h : info.began
  · simp [applyBegan, h]
  · simp only [applyBegan, h, Bool.false_eq_true, if_false]
    unfold pendingOf
    by_cases hs : s = sid
    · subst hs
      rw [lookupA_updateA_self st.submitInfos s _ info hlk, hlk]
    · rw [lookupA_updateA_ne st.submitInfos sid s _ hs]

theorem terminalStep_frame (st : RollState) (sid : Nat)
    (info : queueSubmitInfo) (st2 : RollState)
    (h : terminalStep st sid info = some st2) :
    st2.submitInfos = st.submitInfos ∧ st2.logs = st.logs := by
  unfold terminalStep at h
  rcases htb : terminalBehavior st sid info with _ | rb
  · rw [htb] at h
    cases h
  · rw [htb] at h
    simp only [Option.map_some', Option.some.injEq] at h
    rw [← h]
    exact ⟨rfl, rfl⟩

theorem pendingOf_eq (st : RollState) (sid : Nat) (info0 : queueSubmitInfo)
    (hlk : lookupA st.submitInfos sid = some info0) :
    pendingOf st sid = info0.pendingCommands := by
  unfold pendingOf
  rw [hlk]

theorem pendingOf_congr (st1 st2 : RollState)
    (h : st1.submitInfos = st2.submitInfos) :
    ∀ s, pendingOf st1 s = pendingOf st2 s := by
  intro s
  unfold pendingOf
  rw [h]

theorem rollOutStep_cases (runCmd : List Nat → queueExecutionState →
      queueExecutionState × List Behavior)
    (st : RollState) (fci : List Nat) (st' : RollState) (b : Bool)
    (h : rollOutStep runCmd st fci = some (st', b)) :
    (b = true ∧ ∀ s, ∃ n, pendingOf st' s = (pendingOf st s).drop n) ∨
    (b = false ∧ (∀ s, pendingOf st' s = pendingOf st s) ∧
      st'.logs = st.logs ++ [execOrderErrMsg] ∧
      ∃ sid tl c ptl, fci = sid :: tl ∧ pendingOf st sid = c :: ptl ∧
        fci ≠ c.id) := by
  rcases fci with _ | ⟨sid, tl⟩
  · simp [rollOutStep] at h
  rcases hlk : lookupA st.submitInfos sid with _ | info0
  · simp [rollOutStep, hlk] at h
  simp only [rollOutStep, hlk] at h
  obtain ⟨hsem, hfen, hexe, hlog, hq, hqd, hdn, hss, hsf, hpd, hfp⟩ :=
    applyBegan_fields st sid info0
  have hlk1 := applyBegan_lookup st sid info0 hlk
  have hpend1 := applyBegan_pendingOf st sid info0 hlk
  rw [hpd] at h
  have hmain : ∀ (stOut : RollState) (c : submittedCommand)
      (ptl : List submittedCommand),
      info0.pendingCommands = c :: ptl →
      stOut.submitInfos = updateA (applyBegan st sid info0).1.submitInfos sid
        { (applyBegan st sid info0).2 with pendingCommands := ptl } →
      ∀ s, ∃ n, pendingOf stOut s = (pendingOf st s).drop n := by
    intro stOut c ptl hc hsub s
    by_cases hs : s = sid
    · refine ⟨1, ?_⟩
      rw [hs]
      have hlkOut : lookupA stOut.submitInfos sid
          = some { (applyBegan st sid info0).2 with pendingCommands := ptl } := by
        rw [hsub]
        exact lookupA_updateA_self _ _ _ _ hlk1
      rw [pendingOf_eq stOut sid _ hlkOut, pendingOf_eq st sid info0 hlk, hc]
      rfl
    · refine ⟨0, ?_⟩
      rw [List.drop_zero]
      have h1 : lookupA stOut.submitInfos s
          = lookupA (applyBegan st sid info0).1.submitInfos s := by
        rw [hsub]
        exact lookupA_updateA_ne _ _ _ _ hs
      have h2 : pendingOf stOut s = pendingOf (applyBegan st sid info0).1 s := by
        unfold pendingOf
        rw [h1]
      rw [h2, hpend1 s]
  split at h
  · exact Option.noConfusion h
  next c ptl hpend =>
    split at h
    next hid =>
      split at h
      · exact Option.noConfusion h
      next qes0 hqes =>
        split at h
        · obtain ⟨stT, hts, hpair⟩ := Option.map_eq_some'.mp h
          injection hpair with h1 h2
          subst h1
          left
          refine ⟨h2.symm, ?_⟩
          exact hmain stT c [] hpend
            (by rw [(terminalStep_frame _ _ _ _ hts).1])
        next c2 ptl2 =>
          injection h with h1
          injection h1 with h2 h3
          subst h2
          left
          exact ⟨h3.symm, hmain _ c (c2 :: ptl2) hpend rfl⟩
    next hid =>
      injection h with h1
      injection h1 with h2 h3
      subst h2
      right
      refine ⟨h3.symm, ?_, ?_, sid, tl, c, ptl, rfl, ?_, hid⟩
      · intro s
        exact (pendingOf_congr _ _ rfl s).trans (hpend1 s)
      · show (applyBegan st sid info0).1.logs ++ [execOrderErrMsg]
          = st.logs ++ [execOrderErrMsg]
        rw [hlog]
      · rw [pendingOf_eq st sid info0 hlk, hpend]

/-- **C2.** During `rollOutExecuted`, subcommands of a submit are consumed
strictly from the head of that submit's pending-commands queue in FIFO order
(every submit's final queue is a drop of its initial queue), and whenever the
observed execution index differs from the index at the head of the queue, the
builder logs the execution-order error and rolls out no further subcommands:
the run stops at the offending index with every pending queue left exactly as
it was before that index. -/
theorem C2_fifo_rollout
    (runCmd : List Nat → queueExecutionState →
      queueExecutionState × List Behavior)
    (st : RollState) (executed : List (List Nat)) (st' : RollState) (ok : Bool)
    (h : rollOutExecuted runCmd st executed = some (st', ok)) :
    (∀ sid, ∃ n, pendingOf st' sid = (pendingOf st sid).drop n) ∧
    (ok = false → ∃ pre fci rest stPre,
      executed = pre ++ fci :: rest ∧
      rollOutExecuted runCmd st pre = some (stPre, true) ∧
      (∃ sid t c tl2, fci = sid :: t ∧
        pendingOf stPre sid = c :: tl2 ∧ fci ≠ c.id) ∧
      st'.logs = stPre.logs ++ [execOrderErrMsg] ∧
      (∀ sid, pendingOf st' sid = pendingOf stPre sid)) := by
  induction executed generalizing st with
  | nil =>
      simp only [rollOutExecuted, Option.some.injEq, Prod.mk.injEq] at h
      obtain ⟨h1, h2⟩ := h
      subst h1
      refine ⟨fun sid => ⟨0, by rw [List.drop_zero]⟩, fun hok => ?_⟩
      rw [← h2] at hok
      exact absurd hok (by simp)
  | cons fci rest ih =>
      simp only [rollOutExecuted] at h
      split at h
      · exact Option.noConfusion h
      next st1 hstep =>
        rcases rollOutStep_cases _ _ _ _ _ hstep with ⟨-, hdrop1⟩ | ⟨hff, -⟩
        · have ih' := ih st1 h
          constructor
          · intro sid
            obtain ⟨n1, h1⟩ := ih'.1 sid
            obtain ⟨n2, h2⟩ := hdrop1 sid
            refine ⟨n2 + n1, ?_⟩
            rw [h1, h2, List.drop_drop]
          · intro hok
            obtain ⟨pre, fci2, rest2, stPre, he, hpre, hmis, hlogs, hpd⟩ :=
              ih'.2 hok
            refine ⟨fci :: pre, fci2, rest2, stPre, by rw [he]; rfl,
              ?_, hmis, hlogs, hpd⟩
            simp only [rollOutExecuted, hstep]
            exact hpre
        · exact absurd hff (by simp)
      next st1 hstep =>
        injection h with h1
        injection h1 with h2 h3
        subst h2
        rcases rollOutStep_cases _ _ _ _ _ hstep with ⟨hff, -⟩ |
          ⟨-, hsame, hlogs, sid, t, c, tl2, hfci, hpend, hne⟩
        · exact absurd hff (by simp)
        · refine ⟨fun s => ⟨0, by rw [List.drop_zero]; exact hsame s⟩,
            fun _ => ⟨[], fci, rest, st, rfl, rfl,
              ⟨sid, t, c, tl2, hfci, hpend, hne⟩, hlogs, hsame⟩⟩

/-- Witness for C2: observing `[1,0,0,1]` while `[1,0,0,0]` heads submit 1's
queue makes the rollout stop with `ok = false`; the theorem's conclusions
hold for that run. -/
theorem C2_witness :
    rollOutExecuted rcTriv stC2 [[1, 0, 0, 1]] = some (stC2out, false) ∧
    ((∀ sid, ∃ n, pendingOf stC2out sid = (pendingOf stC2 sid).drop n) ∧
    (false = false → ∃ pre fci rest stPre,
      [[1, 0, 0, 1]] = pre ++ fci :: rest ∧
      rollOutExecuted rcTriv stC2 pre = some (stPre, true) ∧
      (∃ sid t c tl2, fci = sid :: t ∧
        pendingOf stPre sid = c :: tl2 ∧ fci ≠ c.id) ∧
      stC2out.logs = stPre.logs ++ [execOrderErrMsg] ∧
      (∀ sid, pendingOf stC2out sid = pendingOf stPre sid))) :=
  ⟨rfl, C2_fifo_rollout rcTriv stC2 [[1, 0, 0, 1]] stC2out false rfl⟩

/-- **C3 (amended).** When the last subcommand in a submit's pending-commands
queue is drained by the rollout step, exactly one terminal behavior is
appended to the footprint; it reads the submit's `queued` label, writes its
`done` label, writes the signal label of every *non-null* signal semaphore of
the submit, and writes the signal label of the submit's signal fence *only
when the fence handle is non-null* (a null fence contributes no write; a
non-null fence must have a shadow entry or the builder panics). -/
theorem C3_terminal_behavior
    (runCmd : List Nat → queueExecutionState →
      queueExecutionState × List Behavior)
    (st : RollState) (sid : Nat) (t : List Nat) (fci : List Nat)
    (info0 : queueSubmitInfo) (c : submittedCommand)
    (qes0 : queueExecutionState)
    (hfci : fci = sid :: t)
    (hinfo : lookupA st.submitInfos sid = some info0)
    (hpend : info0.pendingCommands = [c])
    (hid : fci = c.id)
    (hqes : lookupA st.executionStates info0.queue = some qes0)
    (hfence : info0.signalFence = 0 ∨
      ∃ fl, lookupA st.fences info0.signalFence = some fl) :
    ∃ st' tbh, rollOutStep runCmd st fci = some (st', true) ∧
      st'.footprint = st.footprint
        ++ (if info0.began then []
            else [(beganReads st.semaphoreSignals st.records
              info0.waitSemaphores (Behavior.new [sid])).2])
        ++ (runCmd fci (updateCurrentCommand
              { qes0 with currentSubmitID := sid } fci)).2
        ++ [tbh] ∧
      tbh.id = [sid] ∧
      DefUseVariable.label info0.queued ∈ tbh.reads ∧
      DefUseVariable.label info0.done ∈ tbh.writes ∧
      (∀ sp ∈ info0.signalSemaphores, sp ≠ 0 →
        semLabelVar st.semaphoreSignals sp ∈ tbh.writes) ∧
      (∀ fl, lookupA st.fences info0.signalFence = some fl →
        info0.signalFence ≠ 0 →
        DefUseVariable.label fl.signal ∈ tbh.writes) := by
  subst hfci
  obtain ⟨hsem, hfen, hexe, hlog, hq, hqd, hdn, hss, hsf, hpd, hfp⟩ :=
    applyBegan_fields st sid info0
  have hqes2 : lookupA (applyBegan st sid info0).1.executionStates
      (applyBegan st sid info0).2.queue = some qes0 := by
    rw [hexe, hq]
    exact hqes
  have hfence2 : (applyBegan st sid info0).2.signalFence = 0 ∨
      ∃ fl, lookupA (applyBegan st sid info0).1.fences
        (applyBegan st sid info0).2.signalFence = some fl := by
    rw [hsf, hfen]
    exact hfence
  simp only [rollOutStep, hinfo, hpd, hpend]
  rw [if_pos hid]
  simp only [hqes2]
  obtain ⟨st2, tbh, heq, hfp2, hsub2, hlog2, hsem2, hfen2, hexe2, hid2, hrd,
      hwr, hsems, hflw⟩ :=
    terminalStep_spec
      { (applyBegan st sid info0).1 with
        executionStates := updateA (applyBegan st sid info0).1.executionStates
          (applyBegan st sid info0).2.queue
          (runCmd (sid :: t) (updateCurrentCommand
            { qes0 with currentSubmitID := sid } (sid :: t))).1,
        footprint := (applyBegan st sid info0).1.footprint ++
          (runCmd (sid :: t) (updateCurrentCommand
            { qes0 with currentSubmitID := sid } (sid :: t))).2,
        submitInfos := updateA (applyBegan st sid info0).1.submitInfos sid
          { (applyBegan st sid info0).2 with pendingCommands := [] } }
      sid { (applyBegan st sid info0).2 with pendingCommands := [] }
      hfence2
  refine ⟨st2, tbh, ?_, ?_, hid2, ?_, ?_, ?_, ?_⟩
  · rw [heq]
    rfl
  · rw [hfp2]
    show (applyBegan st sid info0).1.footprint ++
        (runCmd (sid :: t) (updateCurrentCommand
          { qes0 with currentSubmitID := sid } (sid :: t))).2 ++ [tbh] = _
    rw [hfp]
  · rw [← hqd]
    exact hrd
  · rw [← hdn]
    exact hwr
  · intro sp hsp hne
    rw [← hss] at hsp
    have h2 := hsems sp hsp hne
    rw [← hsem]
    exact h2
  · intro fl hfl hne
    refine hflw fl ?_ ?_
    · rw [hfen, hsf]
      exact hfl
    · rw [hsf]
      exact hne

/-- Counterexample to C3 as stated: submit 1 of `stC3` has a *null* signal
fence while the fences map holds fence 6 with signal label 40; draining the
last subcommand emits the terminal behavior `tC3`, which writes no
fence-signal label at all (its writes are exactly the `done` label 11 and the
semaphore signal label 20). -/
theorem C3_counterexample :
    (∃ st', rollOutStep rcTriv stC3 [1, 0, 0, 0] = some (st', true) ∧
      st'.footprint = [tC3]) ∧
    DefUseVariable.label 10 ∈ tC3.reads ∧
    DefUseVariable.label 11 ∈ tC3.writes ∧
    DefUseVariable.label 20 ∈ tC3.writes ∧
    ¬ DefUseVariable.label 40 ∈ tC3.writes ∧
    ¬ DefUseVariable.label 41 ∈ tC3.writes :=
  ⟨⟨_, rfl, rfl⟩, by decide, by decide, by decide, by decide, by decide⟩

/-- Witness for C3: on `stC3w` (same submit, but signalling the registered
fence 6) every hypothesis of the amended theorem holds concretely. -/
theorem C3_witness :
    (lookupA stC3w.submitInfos 1 = some infoC3w ∧
     infoC3w.pendingCommands = [⟨[1, 0, 0, 0]⟩] ∧
     ([1, 0, 0, 0] : List Nat) = (⟨[1, 0, 0, 0]⟩ : submittedCommand).id ∧
     lookupA stC3w.executionStates infoC3w.queue
       = some (⟨0, [0, 0, 0, 0]⟩ : queueExecutionState) ∧
     (∃ fl, lookupA stC3w.fences infoC3w.signalFence = some fl)) ∧
    (∃ st' tbh, rollOutStep rcTriv stC3w [1, 0, 0, 0] = some (st', true) ∧
      st'.footprint = stC3w.footprint
        ++ (if infoC3w.began then []
            else [(beganReads stC3w.semaphoreSignals stC3w.records
              infoC3w.waitSemaphores (Behavior.new [1])).2])
        ++ (rcTriv [1, 0, 0, 0] (updateCurrentCommand
              { (⟨0, [0, 0, 0, 0]⟩ : queueExecutionState) with
                currentSubmitID := 1 } [1, 0, 0, 0])).2
        ++ [tbh] ∧
      tbh.id = [1] ∧
      DefUseVariable.label infoC3w.queued ∈ tbh.reads ∧
      DefUseVariable.label infoC3w.done ∈ tbh.writes ∧
      (∀ sp ∈ infoC3w.signalSemaphores, sp ≠ 0 →
        semLabelVar stC3w.semaphoreSignals sp ∈ tbh.writes) ∧
      (∀ fl, lookupA stC3w.fences infoC3w.signalFence = some fl →
        infoC3w.signalFence ≠ 0 →
        DefUseVariable.label fl.signal ∈ tbh.writes)) :=
  ⟨⟨rfl, rfl, rfl, rfl, ⟨⟨40, 41⟩, rfl⟩⟩,
   C3_terminal_behavior rcTriv stC3w 1 [0, 0, 0] [1, 0, 0, 0] infoC3w
     ⟨[1, 0, 0, 0]⟩ ⟨0, [0, 0, 0, 0]⟩ rfl rfl rfl rfl rfl
     (Or.inr ⟨⟨40, 41⟩, rfl⟩)⟩

theorem lookupA_append_right (l m : List (Nat × α)) (k : Nat)
    (h : lookupA l k = none) : lookupA (l ++ m) k = lookupA m k := by
  induction l with
  | nil => rfl
  | cons p rest ih =>
      obtain ⟨a, b⟩ := p
      rw [lookupA_cons] at h
      rw [List.cons_append, lookupA_cons]
      by_cases hak : a = k
      · rw [if_pos hak] at h
        exact Option.noConfusion h
      · rw [if_neg hak] at h ⊢
        exact ih h

theorem lookupA_updateOrInsertA_self (l : List (Nat × α)) (k : Nat) (v : α) :
    lookupA (updateOrInsertA l k v) k = some v := by
  unfold updateOrInsertA
  rcases h : lookupA l k with _ | w
  · rw [lookupA_append_right l _ k h, lookupA_cons, if_pos rfl]
  · exact lookupA_updateA_self l k v w h

theorem newCommand_state (st : CBState) (bh : Behavior) (cb tok : Nat)
    (cbo : commandBufferLabels)
    (hcb : lookupA st.commandBuffers cb = some cbo) :
    (newCommand st bh cb tok).1.commandBuffers = st.commandBuffers ∧
    commandsOf (newCommand st bh cb tok).1 cb = commandsOf st cb ++ [tok] := by
  constructor
  · simp only [newCommand, hcb]
  · simp only [newCommand, hcb, commandsOf, lookupA_updateOrInsertA_self]

theorem recordCommands_commands (st : CBState) (bh : Behavior) (cb : Nat)
    (cbo : commandBufferLabels)
    (hcb : lookupA st.commandBuffers cb = some cbo) :
    ∀ toks, commandsOf (recordCommands st bh cb toks) cb
      = commandsOf st cb ++ toks := by
  intro toks
  induction toks generalizing st with
  | nil => simp [recordCommands]
  | cons tok rest ih =>
      obtain ⟨hbuf, hcmds⟩ := newCommand_state st bh cb tok cbo hcb
      simp only [recordCommands]
      rw [ih (newCommand st bh cb tok).1 (by rw [hbuf]; exact hcb), hcmds,
        List.append_assoc]
      rfl

/-- **C5.** After `VkBeginCommandBuffer` or `VkResetCommandBuffer` on a
command buffer that has a shadow entry, the builder's deferred command list
for that buffer is empty; hence a `Reset` followed by re-recording leaves
exactly the newly recorded commands and no deferred behaviors recorded
before the `Reset`. -/
theorem C5_begin_reset_clear
    (st : CBState) (bh : Behavior) (cb : Nat) (cbo : commandBufferLabels)
    (hcb : lookupA st.commandBuffers cb = some cbo) :
    commandsOf (vkBeginCommandBufferArm st bh cb).1 cb = [] ∧
    commandsOf (vkResetCommandBufferArm st bh cb).1 cb = [] ∧
    ∀ bh2 toks, commandsOf
      (recordCommands (vkResetCommandBufferArm st bh cb).1 bh2 cb toks) cb
      = toks := by
  have hA : commandsOf (vkBeginCommandBufferArm st bh cb).1 cb = [] := by
    simp only [vkBeginCommandBufferArm, hcb, commandsOf,
      lookupA_updateOrInsertA_self]
  have hB : commandsOf (vkResetCommandBufferArm st bh cb).1 cb = [] := by
    simp only [vkResetCommandBufferArm, hcb, commandsOf,
      lookupA_updateOrInsertA_self]
  have hCB : (vkResetCommandBufferArm st bh cb).1.commandBuffers
      = st.commandBuffers := by
    simp only [vkResetCommandBufferArm, hcb]
  refine ⟨hA, hB, fun bh2 toks => ?_⟩
  rw [recordCommands_commands _ bh2 cb cbo (by rw [hCB]; exact hcb) toks, hB,
    List.nil_append]

/-- Witness for C5: command buffer 2 of `stC5` carries the deferred list
`[100, 101]`; Begin and Reset both clear it and re-recording leaves exactly
the new tokens. -/
theorem C5_witness :
    lookupA stC5.commandBuffers 2 = some ⟨30, 31, 32⟩ ∧
    (commandsOf (vkBeginCommandBufferArm stC5 (Behavior.new [0]) 2).1 2 = [] ∧
     commandsOf (vkResetCommandBufferArm stC5 (Behavior.new [0]) 2).1 2 = [] ∧
     ∀ bh2 toks, commandsOf (recordCommands
       (vkResetCommandBufferArm stC5 (Behavior.new [0]) 2).1 bh2 2 toks) 2
       = toks) :=
  ⟨rfl, C5_begin_reset_clear stC5 (Behavior.new [0]) 2 ⟨30, 31, 32⟩ rfl⟩

theorem readOne_id (r : MemRecords) (bh : Behavior) (v : DefUseVariable) :
    (readOne r bh v).2.1.id = bh.id := by
  cases v with
  | vkHandle h =>
      by_cases h0 : h = 0 <;> simp [readOne, h0, Behavior.Read]
  | memorySpan mem sp =>
      by_cases m0 : mem = 0
      · simp [readOne, m0]
      · simp only [readOne, m0, if_false]
        rw [foldl_Read_eq]
  | label n => simp [readOne, Behavior.Read]
  | forwardPairedLabel n => simp [readOne, Behavior.Read]
  | commandVar n => simp [readOne, Behavior.Read]
  | sparseBindingVar n => simp [readOne, Behavior.Read]
  | nilVar => simp [readOne, Behavior.Read]
  | otherVar n => simp [readOne, Behavior.Read]

theorem read_id (r : MemRecords) (bh : Behavior)
    (cs : List DefUseVariable) : (read r bh cs).2.1.id = bh.id := by
  induction cs generalizing r bh with
  | nil => rfl
  | cons c cs ih =>
      simp only [read]
      rw [ih, readOne_id]

theorem presentWaitSemReads_id (sems : List (Nat × Nat)) (queue : Nat) :
    ∀ (ws : List Nat) (r : MemRecords) (bh : Behavior),
      (presentWaitSemReads sems queue r ws bh).2.id = bh.id := by
  intro ws
  induction ws with
  | nil => intro r bh; rfl
  | cons sp rest ih =>
      intro r bh
      simp only [presentWaitSemReads]
      split
      · rw [ih, read_id, read_id, read_id]
      · rw [ih, read_id, read_id]

theorem presentExtraBehavior_spec (st : PresentState) (cmdId queue : Nat)
    (waitSems : List Nat) (sw imgID acq pres : Nat)
    (hacq : acquiredLabelOf st sw imgID = some acq)
    (hpres : presentedLabelOf st sw imgID = some pres) :
    ∃ bh, presentExtraBehavior st cmdId queue waitSems sw imgID = some bh ∧
      bh.alive = true ∧ bh.id = [cmdId] ∧
      DefUseVariable.label acq ∈ bh.reads ∧
      DefUseVariable.label pres ∈ bh.writes := by
  simp only [presentExtraBehavior, hacq, hpres, read_label_var,
    write_label_var]
  refine ⟨_, rfl, rfl, ?_, ?_, ?_⟩
  · show (((presentWaitSemReads st.semaphoreSignals queue st.records waitSems
      (Behavior.new [cmdId])).2.Read (.label acq)).Write (.label pres)).id
      = [cmdId]
    show (presentWaitSemReads st.semaphoreSignals queue st.records waitSems
      (Behavior.new [cmdId])).2.id = [cmdId]
    rw [presentWaitSemReads_id]
    rfl
  · simp [Behavior.Read, Behavior.Write]
  · simp [Behavior.Read, Behavior.Write]

/-- **C6.** For every image presented by a `VkQueuePresentKHR` command whose
swapchain label slots exist, the present arm adds exactly one extra behavior
per presented image; each has `Alive = true`, carries the command's id,
reads the swapchain image's acquired label and writes its presented
label. -/
theorem C6_present_extra_behaviors
    (st : PresentState) (cmdId queue : Nat) (waitSems : List Nat)
    (pairs : List (Nat × Nat))
    (h : ∀ p ∈ pairs, (∃ a, acquiredLabelOf st p.1 p.2 = some a) ∧
         (∃ pr, presentedLabelOf st p.1 p.2 = some pr)) :
    ∃ st', vkQueuePresentExtras st cmdId queue waitSems pairs = some st' ∧
      ∃ bhs, st'.footprint = st.footprint ++ bhs ∧
        List.Forall₂ (fun (p : Nat × Nat) (b : Behavior) =>
          b.alive = true ∧ b.id = [cmdId] ∧
          (∀ a, acquiredLabelOf st p.1 p.2 = some a →
            DefUseVariable.label a ∈ b.reads) ∧
          (∀ pr, presentedLabelOf st p.1 p.2 = some pr →
            DefUseVariable.label pr ∈ b.writes)) pairs bhs := by
  induction pairs generalizing st with
  | nil =>
      exact ⟨st, rfl, [], by simp, List.Forall₂.nil⟩
  | cons p rest ih =>
      obtain ⟨⟨a, hacq⟩, ⟨pr, hpres⟩⟩ := h p (List.mem_cons_self p rest)
      obtain ⟨bh, hbh, halive, hbid, hrd, hwr⟩ :=
        presentExtraBehavior_spec st cmdId queue waitSems p.1 p.2 a pr
          hacq hpres
      have h' : ∀ q ∈ rest,
          (∃ a2, acquiredLabelOf
            { st with footprint := st.footprint ++ [bh] } q.1 q.2 = some a2) ∧
          (∃ p2, presentedLabelOf
            { st with footprint := st.footprint ++ [bh] } q.1 q.2
              = some p2) :=
        fun q hq => h q (List.mem_cons_of_mem p hq)
      obtain ⟨st', hst', bhs, hfp, hall⟩ :=
        ih { st with footprint := st.footprint ++ [bh] } h'
      refine ⟨st', ?_, bh :: bhs, ?_, ?_⟩
      · show vkQueuePresentExtras st cmdId queue waitSems (p :: rest)
          = some st'
        obtain ⟨sw, imgID⟩ := p
        simp only [vkQueuePresentExtras, hbh]
        exact hst'
      · rw [hfp]
        simp
      · refine List.Forall₂.cons ⟨halive, hbid, ?_, ?_⟩ hall
        · intro a2 ha2
          rw [hacq] at ha2
          injection ha2 with ha2
          subst ha2
          exact hrd
        · intro p2 hp2
          rw [hpres] at hp2
          injection hp2 with hp2
          subst hp2
          exact hwr

/-- Witness for C6: presenting image 1 of swapchain 3 from `stC6` (acquired
label 51, presented label 61) on queue 5 with wait semaphore 7. -/
theorem C6_witness :
    (∀ p ∈ ([(3, 1)] : List (Nat × Nat)),
      (∃ a, acquiredLabelOf stC6 p.1 p.2 = some a) ∧
      (∃ pr, presentedLabelOf stC6 p.1 p.2 = some pr)) ∧
    (∃ st', vkQueuePresentExtras stC6 9 5 [7] [(3, 1)] = some st' ∧
      ∃ bhs, st'.footprint = stC6.footprint ++ bhs ∧
        List.Forall₂ (fun (p : Nat × Nat) (b : Behavior) =>
          b.alive = true ∧ b.id = [9] ∧
          (∀ a, acquiredLabelOf stC6 p.1 p.2 = some a →
            DefUseVariable.label a ∈ b.reads) ∧
          (∀ pr, presentedLabelOf stC6 p.1 p.2 = some pr →
            DefUseVariable.label pr ∈ b.writes)) [(3, 1)] bhs) :=
  ⟨fun p hp => by
      simp only [List.mem_singleton] at hp
      subst hp
      exact ⟨⟨51, rfl⟩, ⟨61, rfl⟩⟩,
   C6_present_extra_behaviors stC6 9 5 [7] [(3, 1)] (fun p hp => by
      simp only [List.mem_singleton] at hp
      subst hp
      exact ⟨⟨51, rfl⟩, ⟨61, rfl⟩⟩)⟩

/-- **C9 (code bug).** When a `VkCreateImageView` command names a non-null
image with no entry in the builder's image shadow map, `getImageData`
dereferences the missing entry's `layout` field before the `nil` guard
(`footprint_builder.go:1158` versus the guard at line 1162) and panics
(`none`), and the panic propagates through the `VkCreateImageView` arm out
of `BuildFootprint` — contradicting the claim that a shadow-lookup miss is
logged and skipped with no failure escaping.  Only the no-behavior path is
guarded: with `bh = nil` the same miss returns empty data. -/
theorem C9_image_lookup_miss_panics
    (images : List (Nat × imageLayoutAndData)) (r : MemRecords)
    (bh : Behavior) (view img : Nat)
    (himg : img ≠ 0)
    (hmiss : lookupA images img = none) :
    getImageData images r (some bh) img = none ∧
    vkCreateImageViewArm images r bh view img = none ∧
    getImageData images r none img = some (r, none, []) := by
  have h1 : ∀ (r2 : MemRecords) (bh2 : Behavior),
      getImageData images r2 (some bh2) img = none := by
    intro r2 bh2
    simp only [getImageData, read_handle_ne r2 bh2 img himg, hmiss,
      Bool.not_true, Bool.false_eq_true, if_false]
  refine ⟨h1 r bh, ?_, ?_⟩
  · simp only [vkCreateImageViewArm, h1]
  · simp only [getImageData, hmiss]

/-- Witness for C9: image 1 (a non-null handle) absent from an empty image
shadow map. -/
theorem C9_witness :
    (1 : Nat) ≠ 0 ∧
    lookupA ([] : List (Nat × imageLayoutAndData)) 1 = none ∧
    (getImageData [] [] (some (Behavior.new [0])) 1 = none ∧
     vkCreateImageViewArm [] [] (Behavior.new [0]) 7 1 = none ∧
     getImageData [] [] none 1 = some ([], none, [])) :=
  ⟨by decide, rfl,
   C9_image_lookup_miss_panics [] [] (Behavior.new [0]) 7 1 (by decide) rfl⟩

/-- Witness for C8: on `[bS2, bN2]` the sub-range `[8,24)` crosses both
bindings; the span-backed `bS2` is clipped while the label-backed boundary
binding `bN2` fails to shrink and is dropped, and `shrink` on the
label-backed `bN` with a proper sub-range is exactly the dropped case. -/
theorem C8_witness :
    (wfBindings [bS2, bN2] ∧ 8 + 16 < U64MOD ∧
     getSubBindingList [bS2, bN2] 8 16
       = (([bS2, bN2].filter
            (fun bd => overlaps bd.span ⟨8, 8 + 16⟩)).filterMap
           (fun bd => (subBindingAt ⟨8, 8 + 16⟩ bd).toOption))) ∧
    (8 + 16 < U64MOD ∧ (16 : Nat) ≠ vkWholeSize ∧
     ((bN.shrink 8 16).toOption = none ↔
       (bN.bindSize < 8 + 16 ∨
        ((∀ mem msp, bN.backingData ≠ .memorySpan mem msp) ∧
         ((8 : Nat) ≠ 0 ∨ (16 : Nat) ≠ bN.bindSize))))) :=
  ⟨⟨⟨by decide, by decide⟩, by decide,
    C8_clip_errors_dropped.1 [bS2, bN2] 8 16 ⟨by decide, by decide⟩
      (by decide)⟩,
   ⟨by decide, by decide,
    C8_clip_errors_dropped.2 bN 8 16 (by decide) (by decide)⟩⟩

end FB
